import Mathlib

set_option maxRecDepth 10000

/-!
Shallow embedding of parts of the attpc_merger sources
(libattpc_merger: ring_item.rs, event_builder.rs, event.rs, channel_map.rs,
hardware_id.rs, frib_builder.rs, process.rs), together with theorems
checking the natural-language specification against that code.

Bytes are modelled as natural numbers, byte buffers as lists of naturals,
and a `std::io::Cursor<Vec<u8>>` as a buffer plus a read position.
Fallible reads return `Option`; a Rust panic is modelled by a dedicated
constructor where the distinction matters.
-/

/-- Embedding of `std::io::Cursor<Vec<u8>>`: a byte buffer plus a position. -/
structure Cursor where
  bytes : List Nat
  pos : Nat
deriving Repr, DecidableEq

/-- Read one byte and advance the cursor. Fails (`none`) at end of data,
    as `ReadBytesExt::read_u8` does. -/
def Cursor.readU8 (c : Cursor) : Option (Nat × Cursor) :=
  match c.bytes[c.pos]? with
  | some b => some (b, ⟨c.bytes, c.pos + 1⟩)
  | none => none

/-- `ReadBytesExt::read_u16::<LittleEndian>`. -/
def Cursor.readU16le (c : Cursor) : Option (Nat × Cursor) := do
  let (b0, c0) ← c.readU8
  let (b1, c1) ← c0.readU8
  some (b0 + 256 * b1, c1)

/-- `ReadBytesExt::read_u32::<LittleEndian>`. -/
def Cursor.readU32le (c : Cursor) : Option (Nat × Cursor) := do
  let (lo, c0) ← c.readU16le
  let (hi, c1) ← c0.readU16le
  some (lo + 65536 * hi, c1)

/-- `Cursor::set_position`. -/
def Cursor.setPos (c : Cursor) (p : Nat) : Cursor := ⟨c.bytes, p⟩

/-- `RingType` from ring_item.rs. -/
inductive RingType where
  | BeginRun
  | EndRun
  | Dummy
  | Scalers
  | Physics
  | Counter
  | Invalid
deriving Repr, DecidableEq

/-- `impl From<u8> for RingType` from ring_item.rs: the constants are
    BEGIN_RUN_VAL = 1, END_RUN_VAL = 2, DUMMY_VAL = 12, SCALERS_VAL = 20,
    PHYSICS_VAL = 30, COUNTER_VAL = 31. -/
def RingType.fromU8 (value : Nat) : RingType :=
  if value = 1 then .BeginRun
  else if value = 2 then .EndRun
  else if value = 12 then .Dummy
  else if value = 20 then .Scalers
  else if value = 30 then .Physics
  else if value = 31 then .Counter
  else .Invalid

/-- The variants of `EvtItemError` from error.rs. -/
inductive EvtItemError where
  | IOError
  | StackOrderError
  | ItemSizeError
deriving Repr, DecidableEq

/-- `RingItem` from ring_item.rs. -/
structure RingItem where
  size : Nat
  bytes : List Nat
  ring_type : RingType
deriving Repr, DecidableEq

/-- Outcome of `TryFrom<Vec<u8>> for RingItem`, distinguishing a Rust
    panic (out-of-bounds index) from a returned error. -/
inductive RingTryFromResult where
  | panicked
  | failure (e : EvtItemError)
  | ok (item : RingItem)
deriving Repr, DecidableEq

/-- `impl TryFrom<Vec<u8>> for RingItem` from ring_item.rs.
    `buffer.get(4)` is a checked access (returns `None` when short);
    `buffer[8]` is an unchecked index which panics when `buffer.len() <= 8`.
    The constants are RING_HEADER_PRESENT = 20, HEADER_PRESENT_INDEX = 28,
    NO_HEADER_INDEX = 12. -/
def RingItem.tryFrom (buffer : List Nat) : RingTryFromResult :=
  match buffer[4]? with
  | none => .failure .ItemSizeError
  | some rt_data =>
    match buffer[8]? with
    | none => .panicked
    | some b8 =>
      if b8 = 20 ∧ 28 ≤ buffer.length then
        .ok ⟨buffer.length, buffer.drop 28, RingType.fromU8 rt_data⟩
      else if 12 ≤ buffer.length then
        .ok ⟨buffer.length, buffer.drop 12, RingType.fromU8 rt_data⟩
      else .failure .ItemSizeError

/-- The loop body of `RingItem::remove_boundaries` from ring_item.rs,
    operating on the still-unprocessed suffix of the data buffer.
    At each position: read a 2-byte little-endian word, mask with 0xfff to
    get `wlength`, remove the 2 tag bytes, keep the next `wlength * 2`
    bytes, and continue after them. `none` models the slice panic that the
    source hits when exactly one byte remains at the loop head. -/
def removeBoundariesGo : Nat → List Nat → Option (List Nat)
  | _, [] => some []
  | 0, _ :: _ => none
  | _ + 1, [_] => none
  | fuel + 1, b0 :: b1 :: rest =>
    match removeBoundariesGo fuel
        (rest.drop (((b0 + 256 * b1) % 4096) * 2)) with
    | some tl => some (rest.take (((b0 + 256 * b1) % 4096) * 2) ++ tl)
    | none => none

/-- `RingItem::remove_boundaries` from ring_item.rs (returns the updated
    item instead of mutating in place). The fuel bounds the number of
    loop iterations; every iteration removes two tag bytes, so
    `bytes.length + 1` iterations are never exhausted. -/
def RingItem.removeBoundaries (item : RingItem) : Option RingItem :=
  (removeBoundariesGo (item.bytes.length + 1) item.bytes).map
    (fun bs => { item with bytes := bs })

/-- A VMUSB chunk: a 16-bit tag whose low 12 bits give the chunk length in
    16-bit words, followed by the data bytes. Used to state the claim
    about `remove_boundaries`. -/
structure Chunk where
  tag : Nat
  data : List Nat
deriving Repr, DecidableEq

/-- Well-formedness of a chunk: the tag fits in 16 bits and the data is
    exactly `(tag & 0xfff) * 2` bytes. -/
def Chunk.wf (c : Chunk) : Prop :=
  c.tag < 65536 ∧ c.data.length = (c.tag % 4096) * 2

instance (c : Chunk) : Decidable c.wf := by
  unfold Chunk.wf
  infer_instance

/-- Byte encoding of a chunk: the 2-byte little-endian tag, then the data. -/
def Chunk.encode (c : Chunk) : List Nat :=
  c.tag % 256 :: c.tag / 256 :: c.data

/-- Wrapping `usize` subtraction (release-mode Rust semantics): the source
    computes `self.samples - 1`, `self.samples - pointer - 2` and
    `self.samples - inc - 1` on `usize`, which wrap modulo 2^64 on
    underflow. -/
def usizeSub (a b : Nat) : Nat :=
  (a + (2 ^ 64 - b % 2 ^ 64)) % 2 ^ 64

/-- `SIS3300Item` from ring_item.rs. -/
structure SIS3300Item where
  traces : List (List Nat)
  samples : Nat
  channels : Nat
  hasdata : Bool
deriving Repr, DecidableEq

/-- `SIS3300Item::new`. -/
def SIS3300Item.new : SIS3300Item :=
  ⟨List.replicate 8 [], 0, 0, false⟩

/-- One of the sample-reading loops in `SIS3300Item::extract_data`:
    `for p in 0..count` read two little-endian u16 words, mask each with
    0xfff, and store them at index `offset + p` of the odd-channel and
    even-channel traces respectively. -/
def readPairs : Cursor → Nat → Nat → List Nat → List Nat →
    Option (List Nat × List Nat × Cursor)
  | c, 0, _, tOdd, tEven => some (tOdd, tEven, c)
  | c, k + 1, offset, tOdd, tEven => do
    let (v1, c1) ← c.readU16le
    let (v2, c2) ← c1.readU16le
    readPairs c2 k (offset + 1) (tOdd.set offset (v1 % 4096))
      (tEven.set offset (v2 % 4096))

/-- The body of one enabled group in `SIS3300Item::extract_data`
    (ring_item.rs): read the 0xfadc header, the trigger word and the
    samples count, fill the pair of traces (handling the circular-buffer
    wrap-around), then check the 0xffff trailer. The boolean result is
    `true` to continue with the next group and `false` for the source's
    `break` on a bad header or trailer. -/
def sis3300ReadGroup (group : Nat) (item : SIS3300Item) (c : Cursor) :
    Option (SIS3300Item × Cursor × Bool) := do
  let item1 := { item with channels := item.channels + 2 }
  let (header, c1) ← c.readU16le
  if header ≠ 0xfadc then
    some (item1, c1, false)
  else do
    let (groupTrigger, c2) ← c1.readU32le
    let (samplesRead, c3) ← c2.readU32le
    let item2 := { item1 with
      samples := samplesRead,
      traces := (item1.traces.set (group * 2)
          (List.replicate samplesRead 0)).set (group * 2 + 1)
          (List.replicate samplesRead 0) }
    let pointer := groupTrigger &&& 0x1ffff
    let startingPosition := c3.pos
    let body ←
      (if groupTrigger &&& 0x80000 ≠ 0 ∧ pointer < usizeSub item2.samples 1 then do
        let istart := pointer + 1
        let inc := usizeSub (usizeSub item2.samples pointer) 2
        let (tOdd1, tEven1, c5) ←
          readPairs (c3.setPos (startingPosition + istart * 4)) (inc + 1) 0
            (item2.traces.getD (group * 2 + 1) [])
            (item2.traces.getD (group * 2) [])
        let istop := usizeSub (usizeSub item2.samples inc) 1
        readPairs (c5.setPos startingPosition) istop (inc + 1) tOdd1 tEven1
      else
        readPairs c3 item2.samples 0 (item2.traces.getD (group * 2 + 1) [])
          (item2.traces.getD (group * 2) []))
    let (tOdd, tEven, cAfter) := body
    let item3 := { item2 with
      traces := (item2.traces.set (group * 2) tEven).set (group * 2 + 1) tOdd }
    let (trailer, c9) ←
      (cAfter.setPos (startingPosition + item3.samples * 4)).readU16le
    if trailer ≠ 0xffff then
      some (item3, c9, false)
    else
      some ({ item3 with hasdata := true }, c9, true)

/-- The `for group in 0..4` loop of `SIS3300Item::extract_data`. A group
    whose test `group_enable_flags & (1 >> group) == 0` holds is skipped:
    its channel count is bumped and, when the current `samples` is
    positive, both of its traces are zero-filled at that length. Note the
    source literally shifts `1` RIGHT by `group`. -/
def sis3300Groups (flags : Nat) :
    List Nat → SIS3300Item → Cursor → Option (SIS3300Item × Cursor)
  | [], item, c => some (item, c)
  | group :: rest, item, c =>
    if flags &&& (1 >>> group) = 0 then
      let item1 := { item with channels := item.channels + 2 }
      let item2 :=
        if 0 < item.samples then
          { item1 with
            traces := (item1.traces.set (group * 2)
                (List.replicate item.samples 0)).set (group * 2 + 1)
                (List.replicate item.samples 0) }
        else item1
      sis3300Groups flags rest item2 c
    else
      match sis3300ReadGroup group item c with
      | none => none
      | some (item2, c2, true) => sis3300Groups flags rest item2 c2
      | some (item2, c2, false) => some (item2, c2)

/-- `SIS3300Item::extract_data` from ring_item.rs. -/
def SIS3300Item.extractData (item : SIS3300Item) (c : Cursor) :
    Option (SIS3300Item × Cursor) := do
  let (groupEnableFlags, c1) ← c.readU16le
  let (_daqRegister, c2) ← c1.readU32le
  sis3300Groups groupEnableFlags [0, 1, 2, 3] item c2

/-- `SIS3316Item` from ring_item.rs. -/
structure SIS3316Item where
  traces : List (List Nat)
  samples : Nat
  channels : Nat
  valid : List Bool
  hasdata : Bool
deriving Repr, DecidableEq

/-- `SIS3316Item::new`. -/
def SIS3316Item.new : SIS3316Item :=
  ⟨List.replicate 16 [], 0, 0, List.replicate 16 false, false⟩

/-- Sequential u16 reads into a trace starting at `offset`
    (the `for i in 0..self.samples` loop of `SIS3316Item::extract_data`). -/
def readWords : Cursor → Nat → Nat → List Nat → Option (List Nat × Cursor)
  | c, 0, _, t => some (t, c)
  | c, k + 1, offset, t => do
    let (v, c1) ← c.readU16le
    readWords c1 k (offset + 1) (t.set offset v)

/-- The per-record header reads of `SIS3316Item::extract_data`: channel
    number from the first word (`>> 4 & 0xf`), two timestamp words, the
    samples count (a u16 multiplied by 2, wrapping in u16), and a status
    word. -/
def sis3316ReadHeader (c : Cursor) : Option (Nat × Nat × Cursor) := do
  let (h, c1) ← c.readU16le
  let (_stamp1, c2) ← c1.readU32le
  let (_stamp2, c3) ← c2.readU16le
  let (sraw, c4) ← c3.readU16le
  let (_status, c5) ← c4.readU16le
  some ((h >>> 4) &&& 0xf, (sraw * 2) % 65536, c5)

/-- The channel-record loop of `SIS3316Item::extract_data`. The fuel is
    an upper bound on the number of iterations (each iteration consumes
    buffer bytes, so `bytes.length + 1` is never exhausted); running out
    of fuel behaves like a failed read. -/
def sis3316Loop : Nat → Nat → SIS3316Item → Cursor →
    Option (SIS3316Item × Cursor)
  | 0, _, _, _ => none
  | fuel + 1, channel, item, c => do
    let item1 := { item with
      valid := item.valid.set channel true,
      channels := item.channels + 1,
      traces := item.traces.set channel
        ((List.replicate (item.samples + 1) 0).set 0 channel) }
    let (t, c1) ← readWords c item1.samples 1 (item1.traces.getD channel [])
    let item2 := { item1 with traces := item1.traces.set channel t }
    let (next, c2) ← c1.readU16le
    let c3 := c2.setPos (c2.pos - 2)
    if next = 0xffff then
      some (item2, c3)
    else do
      let (channel2, samples2, c4) ← sis3316ReadHeader c3
      sis3316Loop fuel channel2 { item2 with samples := samples2 } c4

/-- `SIS3316Item::extract_data` from ring_item.rs. -/
def SIS3316Item.extractData (item : SIS3316Item) (c : Cursor) :
    Option (SIS3316Item × Cursor) := do
  let (channel, samples0, c1) ← sis3316ReadHeader c
  let (item2, c2) ←
    sis3316Loop (c.bytes.length + 1) channel { item with samples := samples0 } c1
  some ({ item2 with hasdata := true }, c2)

/-- `V977Item` from ring_item.rs. -/
structure V977Item where
  coinc : Nat
deriving Repr, DecidableEq

/-- `V977Item::extract_data`: read a single u16. -/
def V977Item.extractData (_item : V977Item) (c : Cursor) :
    Option (V977Item × Cursor) := do
  let (v, c1) ← c.readU16le
  some (⟨v⟩, c1)

/-- `PhysicsItem` from ring_item.rs. -/
structure PhysicsItem where
  event : Nat
  timestamp : Nat
  fadc1 : SIS3300Item
  fadc2 : SIS3300Item
  fadc3 : SIS3300Item
  fadc4 : SIS3316Item
  coinc : V977Item
deriving Repr, DecidableEq

/-- `PhysicsItem::new`. -/
def PhysicsItem.new : PhysicsItem :=
  ⟨0, 0, SIS3300Item.new, SIS3300Item.new, SIS3300Item.new,
    SIS3316Item.new, ⟨0⟩⟩

/-- The tag-dispatch loop of `TryFrom<RingItem> for PhysicsItem`: read a
    2-byte tag (a failed read breaks the loop), dispatch on
    0x1903/0x1904/0x1905/0x1906/0x977, and on an unknown tag rewind two
    bytes and stop. The fuel bounds the iteration count (every iteration
    consumes buffer bytes, so `bytes.length + 1` is never exhausted). -/
def physicsLoop : Nat → PhysicsItem → Cursor → Option (PhysicsItem × Cursor)
  | 0, _, _ => none
  | fuel + 1, info, c =>
    match c.readU16le with
    | none => some (info, c)
    | some (tag, c1) =>
      if tag = 0x1903 then do
        let (f, c2) ← info.fadc1.extractData c1
        physicsLoop fuel { info with fadc1 := f } c2
      else if tag = 0x1904 then do
        let (f, c2) ← info.fadc2.extractData c1
        physicsLoop fuel { info with fadc2 := f } c2
      else if tag = 0x1905 then do
        let (f, c2) ← info.fadc3.extractData c1
        physicsLoop fuel { info with fadc3 := f } c2
      else if tag = 0x1906 then do
        let (f, c2) ← info.fadc4.extractData c1
        physicsLoop fuel { info with fadc4 := f } c2
      else if tag = 0x977 then do
        let (v, c2) ← info.coinc.extractData c1
        physicsLoop fuel { info with coinc := v } c2
      else
        some (info, c1.setPos (c1.pos - 2))

/-- `impl TryFrom<RingItem> for PhysicsItem` from ring_item.rs. -/
def PhysicsItem.tryFrom (ring : RingItem) : Option PhysicsItem := do
  let c : Cursor := ⟨ring.bytes, 0⟩
  let (event, c1) ← c.readU32le
  let (ts, c2) ← c1.readU32le
  let (info, _) ←
    physicsLoop (ring.bytes.length + 1)
      { PhysicsItem.new with event := event, timestamp := ts } c2
  some info

/-- `BeginRunItem` from ring_item.rs. The title is kept as the raw byte
    list that `read_to_string` consumes (UTF-8 validation not modelled). -/
structure BeginRunItem where
  run : Nat
  start : Nat
  title : List Nat
deriving Repr, DecidableEq

/-- `BeginRunItem::new`. -/
def BeginRunItem.new : BeginRunItem := ⟨0, 0, []⟩

/-- `impl TryFrom<RingItem> for BeginRunItem`. -/
def BeginRunItem.tryFrom (ring : RingItem) : Option BeginRunItem := do
  let c : Cursor := ⟨ring.bytes, 0⟩
  let (run, c1) ← c.readU32le
  let c2 := c1.setPos (c1.pos + 4)
  let (start, c3) ← c2.readU32le
  let c4 := c3.setPos (c3.pos + 4)
  some ⟨run, start, c4.bytes.drop c4.pos⟩

/-- `EndRunItem` from ring_item.rs. -/
structure EndRunItem where
  stop : Nat
  time : Nat
deriving Repr, DecidableEq

/-- `EndRunItem::new`. -/
def EndRunItem.new : EndRunItem := ⟨0, 0⟩

/-- `impl TryFrom<RingItem> for EndRunItem`. -/
def EndRunItem.tryFrom (ring : RingItem) : Option EndRunItem := do
  let c : Cursor := ⟨ring.bytes, 0⟩
  let (stop, c1) ← c.readU32le
  let (time, _) ← c1.readU32le
  some ⟨stop, time⟩

/-- `RunInfo` from ring_item.rs (`end` is a Lean keyword, so the fields
    are named `begin_run` / `end_run`). -/
structure RunInfo where
  begin_run : BeginRunItem
  end_run : EndRunItem
deriving Repr, DecidableEq

/-- `RunInfo::new`. -/
def RunInfo.new : RunInfo := ⟨BeginRunItem.new, EndRunItem.new⟩

/-- Sequential u32 reads (the scaler-data loop of
    `TryFrom<RingItem> for ScalersItem`). -/
def readU32List : Cursor → Nat → Option (List Nat × Cursor)
  | c, 0 => some ([], c)
  | c, k + 1 => do
    let (v, c1) ← c.readU32le
    let (vs, c2) ← readU32List c1 k
    some (v :: vs, c2)

/-- `ScalersItem` from ring_item.rs. -/
structure ScalersItem where
  start_offset : Nat
  stop_offset : Nat
  timestamp : Nat
  incremental : Nat
  data : List Nat
deriving Repr, DecidableEq

/-- `impl TryFrom<RingItem> for ScalersItem`. -/
def ScalersItem.tryFrom (ring : RingItem) : Option ScalersItem := do
  let c : Cursor := ⟨ring.bytes, 0⟩
  let (startOffset, c1) ← c.readU32le
  let (stopOffset, c2) ← c1.readU32le
  let (timestamp, c3) ← c2.readU32le
  let (_dummy, c4) ← c3.readU32le
  let (count, c5) ← c4.readU32le
  let (incremental, c6) ← c5.readU32le
  let (data, _) ← readU32List c6 count
  some ⟨startOffset, stopOffset, timestamp, incremental, data⟩

/-- One write issued to the `HDFWriter` by `FribBuilder::process_evt_data`
    (frib_builder.rs); the writer itself is an external collaborator and
    is modelled as the ordered log of these calls. -/
inductive WriteAction where
  | runinfo (r : RunInfo)
  | scalers (s : ScalersItem) (counter : Nat)
  | physics (p : PhysicsItem) (counter : Nat)
deriving Repr, DecidableEq

/-- The `while let Some(ring) = evt_stack.get_next_ring_item()` loop of
    `FribBuilder::process_evt_data` (frib_builder.rs), over the sequence
    of ring items the evt stack yields. `run_info`, `scaler_counter` and
    `event_counter` are the loop state; the result is the ordered list of
    writer calls, `none` modelling both a decode failure (the `?`
    operator) and the `ring.bytes[4]` panic in the `Invalid` log arm. -/
def processEvt : List RingItem → RunInfo → Nat → Nat → Option (List WriteAction)
  | [], _, _, _ => some []
  | ring :: rest, runInfo, sc, ec =>
    match ring.ring_type with
    | .BeginRun => do
      let b ← BeginRunItem.tryFrom ring
      processEvt rest { runInfo with begin_run := b } sc ec
    | .EndRun => do
      let e ← EndRunItem.tryFrom ring
      some [WriteAction.runinfo { runInfo with end_run := e }]
    | .Dummy => processEvt rest runInfo sc ec
    | .Scalers => do
      let s ← ScalersItem.tryFrom ring
      let acts ← processEvt rest runInfo (sc + 1) ec
      some (WriteAction.scalers s sc :: acts)
    | .Physics => do
      let ring2 ← ring.removeBoundaries
      let p ← PhysicsItem.tryFrom ring2
      let acts ← processEvt rest runInfo sc (ec + 1)
      some (WriteAction.physics p ec :: acts)
    | .Counter => processEvt rest runInfo sc ec
    | .Invalid =>
      if 4 < ring.bytes.length then processEvt rest runInfo sc ec
      else none

/-- `FribBuilder::process_evt_data` from frib_builder.rs, starting from a
    fresh `RunInfo` and zeroed counters. -/
def processEvtData (items : List RingItem) : Option (List WriteAction) :=
  processEvt items RunInfo.new 0 0

/-- `SiDetector` from hardware_id.rs. -/
inductive SiDetector where
  | Upstream
  | Downstream
deriving Repr, DecidableEq

/-- `impl FromStr for SiDetector`. -/
def SiDetector.fromStr (s : String) : Option SiDetector :=
  if s = "upstream" then some .Upstream
  else if s = "downstream" then some .Downstream
  else none

/-- `SiSide` from hardware_id.rs. -/
inductive SiSide where
  | Front
  | Back
deriving Repr, DecidableEq

/-- `impl FromStr for SiSide`. -/
def SiSide.fromStr (s : String) : Option SiSide :=
  if s = "front" then some .Front
  else if s = "back" then some .Back
  else none

/-- `SiliconID` from hardware_id.rs. -/
structure SiliconID where
  kind : SiDetector
  side : SiSide
  channel : Nat
deriving Repr, DecidableEq

/-- `SiliconID::new` (the failed string parses become `none`). -/
def SiliconID.mk? (kind side : String) (channel : Nat) : Option SiliconID := do
  let k ← SiDetector.fromStr kind
  let sd ← SiSide.fromStr side
  some ⟨k, sd, channel⟩

/-- `Detector` from hardware_id.rs. -/
inductive Detector where
  | Silicon (si : SiliconID)
  | Pad (p : Nat)
deriving Repr, DecidableEq

/-- `HardwareID` from hardware_id.rs. -/
structure HardwareID where
  cobo_id : Nat
  asad_id : Nat
  aget_id : Nat
  channel : Nat
  detector : Detector
deriving Repr, DecidableEq

/-- `generate_uuid` from hardware_id.rs: the derived 64-bit key
    `channel + aget*100 + asad*10_000 + cobo*1_000_000` (the inputs are
    u8, so no u64 overflow is possible). -/
def generateUuid (coboId asadId agetId channelId : Nat) : Nat :=
  channelId + agetId * 100 + asadId * 10000 + coboId * 1000000

/-- The variants of `GetChannelMapError` from error.rs (error payloads
    are dropped). `ParsingError` is the `From<ParseIntError>` conversion,
    `BadDetKeyword` the `From<DetectorError>` one. -/
inductive GetChannelMapError where
  | IOError
  | ParsingError
  | BadDetKeyword
  | BadFileFormat
deriving Repr, DecidableEq

/-- Digit-string evaluation: `none` unless the characters are one or more
    ASCII digits. -/
def parseDigits (cs : List Char) : Option Nat :=
  if cs ≠ [] ∧ cs.all Char.isDigit then
    some (cs.foldl (fun a c => a * 10 + (c.toNat - 48)) 0)
  else none

/-- Embedding of Rust's `str::parse` for an unsigned integer type with
    exclusive upper bound `bound`: an optional leading `+`, then one or
    more digits, and the value must fit (overflow is a parse error). -/
def parseUnsigned (bound : Nat) (s : String) : Option Nat :=
  let cs :=
    match s.toList with
    | '+' :: rest => rest
    | cs => cs
  match parseDigits cs with
  | some v => if v < bound then some v else none
  | none => none

/-- `str::parse::<u8>`. -/
def parseU8 (s : String) : Option Nat := parseUnsigned 256 s

/-- `str::parse::<usize>`. -/
def parseUsize (s : String) : Option Nat := parseUnsigned (2 ^ 64) s

/-- Splitting a character list on commas, preserving empty fields (the
    semantics of `str::split(',')`); the result is always non-empty. -/
def splitOnComma : List Char → List (List Char)
  | [] => [[]]
  | c :: rest =>
    match splitOnComma rest with
    | [] => [[]]
    | f :: fs => if c = ',' then [] :: f :: fs else (c :: f) :: fs

/-- Rust's `str::split_terminator(",")`: like splitting on every comma,
    but a trailing empty substring is skipped. -/
def splitTerminatorComma (s : String) : List String :=
  let parts := (splitOnComma s.toList).map (fun cs => String.mk cs)
  if parts.getLast? = some "" then parts.dropLast else parts

/-- `GetChannelMap` from channel_map.rs: the `FxHashMap<u64, HardwareID>`
    is modelled as an association list where an insert prepends its entry
    (so the newest binding for a key shadows older ones, matching
    `HashMap::insert`), and lookup takes the first match. -/
structure GetChannelMap where
  map : List (Nat × HardwareID)
deriving Repr, DecidableEq

/-- `FxHashMap::insert`. -/
def GetChannelMap.insert (pm : GetChannelMap) (uuid : Nat)
    (hw : HardwareID) : GetChannelMap :=
  ⟨(uuid, hw) :: pm.map⟩

/-- `FxHashMap::get`. -/
def GetChannelMap.find (pm : GetChannelMap) (uuid : Nat) : Option HardwareID :=
  (pm.map.find? (fun e => e.1 == uuid)).map (fun e => e.2)

/-- One iteration of the CSV parsing loop in `GetChannelMap::new`
    (channel_map.rs): split the line on commas (terminator semantics),
    reject fewer than 5 fields with `BadFileFormat`, parse the four
    hardware ids as u8, then build a `Pad` detector from a 5-field row or
    a `Silicon` detector from a 7-field row, rejecting any other field
    count with `BadFileFormat`. In the 7-field case the source evaluates
    `entries[6].parse()?` before `SiliconID::new` parses the keyword and
    side strings. -/
def processLine (pm : GetChannelMap) (line : String) :
    Except GetChannelMapError GetChannelMap :=
  let entries := splitTerminatorComma line
  if entries.length < 5 then .error .BadFileFormat
  else
    match parseU8 (entries.getD 0 ""), parseU8 (entries.getD 1 ""),
        parseU8 (entries.getD 2 ""), parseU8 (entries.getD 3 "") with
    | some cbId, some adId, some agId, some chId =>
      let insertRow : Detector → Except GetChannelMapError GetChannelMap :=
        fun detInfo =>
          .ok (pm.insert (generateUuid cbId adId agId chId)
            ⟨cbId, adId, agId, chId, detInfo⟩)
      if entries.length = 5 then
        match parseUsize (entries.getD 4 "") with
        | some p => insertRow (.Pad p)
        | none => .error .ParsingError
      else if entries.length = 7 then
        match parseUsize (entries.getD 6 "") with
        | some sch =>
          match SiliconID.mk? (entries.getD 4 "") (entries.getD 5 "") sch with
          | some si => insertRow (.Silicon si)
          | none => .error .BadDetKeyword
        | none => .error .ParsingError
      else .error .BadFileFormat
    | _, _, _, _ => .error .ParsingError

/-- `GetChannelMap::new` from channel_map.rs, over the file contents as a
    list of lines (the file read itself is I/O and is not modelled). The
    first line (header) is skipped, the rest are processed in order. -/
def channelMapNew (lines : List String) :
    Except GetChannelMapError GetChannelMap :=
  (lines.drop 1).foldlM processLine ⟨[]⟩

/-- `GetChannelMap::get_hardware_id`. -/
def GetChannelMap.getHardwareId (pm : GetChannelMap)
    (coboId asadId agetId channelId : Nat) : Option HardwareID :=
  pm.find (generateUuid coboId asadId agetId channelId)

/-- The parsed content of one CSV row, used only to state claims: the
    four hardware ids and the detector a row denotes, exactly as
    `processLine` parses them (`none` when `processLine` would fail). -/
def rowParse (line : String) : Option (Nat × Nat × Nat × Nat × Detector) :=
  let entries := splitTerminatorComma line
  if entries.length = 5 then do
    let cbId ← parseU8 (entries.getD 0 "")
    let adId ← parseU8 (entries.getD 1 "")
    let agId ← parseU8 (entries.getD 2 "")
    let chId ← parseU8 (entries.getD 3 "")
    let p ← parseUsize (entries.getD 4 "")
    some (cbId, adId, agId, chId, .Pad p)
  else if entries.length = 7 then do
    let cbId ← parseU8 (entries.getD 0 "")
    let adId ← parseU8 (entries.getD 1 "")
    let agId ← parseU8 (entries.getD 2 "")
    let chId ← parseU8 (entries.getD 3 "")
    let sch ← parseUsize (entries.getD 6 "")
    let si ← SiliconID.mk? (entries.getD 4 "") (entries.getD 5 "") sch
    some (cbId, adId, agId, chId, .Silicon si)
  else none

/-- Modelled from the spec: `GrawData`, one decoded sample of a GET frame
    (graw_frame.rs is not among the given sources). Fields as used by
    event.rs: `aget_id`, `channel`, `time_bucket_id`, `sample`. -/
structure GrawData where
  aget_id : Nat
  channel : Nat
  time_bucket_id : Nat
  sample : Int
deriving Repr, DecidableEq

/-- Modelled from the spec: the GET frame header fields used downstream
    (`frame_size` in 256-bit units, `event_id`, `event_time`, `cobo_id`,
    `asad_id`); graw_frame.rs is not among the given sources. -/
structure GrawFrameHeader where
  frame_size : Nat
  event_id : Nat
  event_time : Nat
  cobo_id : Nat
  asad_id : Nat
deriving Repr, DecidableEq

/-- Modelled from the spec: a decoded `GrawFrame` (header plus sample
    body); graw_frame.rs is not among the given sources. -/
structure GrawFrame where
  header : GrawFrameHeader
  data : List GrawData
deriving Repr, DecidableEq

/-- Modelled from the spec: `NUMBER_OF_TIME_BUCKETS` (constants.rs is not
    among the given sources) — each trace is a fixed-length 512 array. -/
def NUMBER_OF_TIME_BUCKETS : Nat := 512

/-- Modelled from the spec: the designated CoBo whose frames contribute
    `timestamp_other` (constants.rs is not among the given sources; the
    spec does not fix the number and no claim depends on it). -/
def COBO_WITH_TIMESTAMP : Nat := 10

/-- Modelled from the spec: the fixed-pattern-noise channels discarded
    before writing (constants.rs is not among the given sources; the spec
    does not enumerate them and no claim depends on the values). -/
def FPN_CHANNELS : List Nat := [11, 22, 45, 56]

/-- The variants of `EventError` from error.rs. -/
inductive EventError where
  | InvalidHardware (cb ad ag ch : Nat)
  | MismatchedEventID (given expected : Nat)
deriving Repr, DecidableEq

/-- `Event` from event.rs; the `FxHashMap<HardwareID, Array1<i16>>` of
    traces is modelled as an association list in insertion order. -/
structure Event where
  nframes : Nat
  traces : List (HardwareID × List Int)
  timestamp : Nat
  timestampother : Nat
  event_id : Nat
deriving Repr, DecidableEq

/-- Trace-map update in `Event::append_frame`: if the hardware id already
    has a trace, set the sample at the time bucket (`trace[bucket] =
    sample`); otherwise insert a fresh zeroed 512-sample trace with that
    one sample set. Frames are validated upstream, so the bucket index is
    in range and `List.set` is exact. -/
def tracesUpdate (ts : List (HardwareID × List Int)) (hw : HardwareID)
    (bucket : Nat) (sample : Int) : List (HardwareID × List Int) :=
  if (ts.find? (fun e => e.1 == hw)).isSome then
    ts.map (fun e => if e.1 == hw then (e.1, e.2.set bucket sample) else e)
  else
    ts ++ [(hw, (List.replicate NUMBER_OF_TIME_BUCKETS 0).set bucket sample)]

/-- The body of the `for datum in frame.data.iter()` loop in
    `Event::append_frame` (event.rs): skip fixed-pattern-noise channels,
    skip samples whose hardware id is missing from the channel map, and
    otherwise store the sample in the trace for the hardware id. -/
def traceStep (padMap : GetChannelMap) (frame : GrawFrame) (acc : Event)
    (datum : GrawData) : Event :=
  if datum.channel ∈ FPN_CHANNELS then acc
  else
    match padMap.getHardwareId frame.header.cobo_id frame.header.asad_id
        datum.aget_id datum.channel with
    | none => acc
    | some hw =>
      { acc with
        traces := tracesUpdate acc.traces hw datum.time_bucket_id
          datum.sample }

/-- The part of `Event::append_frame` after the event-id check (event.rs):
    record the timestamp (the designated CoBo fills `timestampother`, all
    others `timestamp`), fold the frame's samples into the traces via
    `traceStep`, and bump `nframes`. -/
def Event.appendFrameBody (padMap : GetChannelMap) (ev1 : Event)
    (frame : GrawFrame) : Event :=
  let ev2 :=
    if frame.header.cobo_id = COBO_WITH_TIMESTAMP then
      { ev1 with timestampother := frame.header.event_time }
    else
      { ev1 with timestamp := frame.header.event_time }
  let ev3 := frame.data.foldl (traceStep padMap frame) ev2
  { ev3 with nframes := ev3.nframes + 1 }

/-- `Event::append_frame` from event.rs: the first frame adopts the
    frame's event id, later frames must match it or the append fails with
    `MismatchedEventID`; on success the body `appendFrameBody` runs. -/
def Event.appendFrame (padMap : GetChannelMap) (ev : Event)
    (frame : GrawFrame) : Except EventError Event :=
  if ev.nframes = 0 then
    .ok (Event.appendFrameBody padMap
      { ev with event_id := frame.header.event_id } frame)
  else if ev.event_id ≠ frame.header.event_id then
    .error (.MismatchedEventID frame.header.event_id ev.event_id)
  else
    .ok (Event.appendFrameBody padMap ev frame)

/-- `Event::new` from event.rs: start from the empty event and append
    every frame in order. -/
def Event.fromFrames (padMap : GetChannelMap) (frames : List GrawFrame) :
    Except EventError Event :=
  frames.foldlM (Event.appendFrame padMap) ⟨0, [], 0, 0, 0⟩

/-- The variants of `EventBuilderError` from error.rs. -/
inductive EventBuilderError where
  | EventOutOfOrder (frameId currentId : Nat)
  | EventError (e : EventError)
deriving Repr, DecidableEq

/-- `EventBuilder` from event_builder.rs. -/
structure EventBuilder where
  current_event_id : Option Nat
  pad_map : GetChannelMap
  frame_stack : List GrawFrame
deriving Repr, DecidableEq

/-- `EventBuilder::append_frame` from event_builder.rs, returning the
    optional completed event together with the updated builder state. -/
def EventBuilder.appendFrame (b : EventBuilder) (frame : GrawFrame) :
    Except EventBuilderError (Option Event × EventBuilder) :=
  match b.current_event_id with
  | some currentId =>
    if frame.header.event_id < currentId then
      .error (.EventOutOfOrder frame.header.event_id currentId)
    else if currentId < frame.header.event_id then
      match Event.fromFrames b.pad_map b.frame_stack with
      | .error e => .error (.EventError e)
      | .ok event =>
        .ok (some event,
          { b with
            frame_stack := [frame],
            current_event_id := some frame.header.event_id })
    else
      .ok (none, { b with frame_stack := b.frame_stack ++ [frame] })
  | none =>
    .ok (none,
      { b with
        current_event_id := some frame.header.event_id,
        frame_stack := b.frame_stack ++ [frame] })

/-- `EventBuilder::flush_final_event` from event_builder.rs. The source
    takes `&mut self` but performs no mutation (it only reads the stack
    and builds), so the embedding returns the unchanged builder alongside
    the optional event; a failed `Event::new` is mapped to `None` as in
    the source. -/
def EventBuilder.flushFinalEvent (b : EventBuilder) :
    Option Event × EventBuilder :=
  if b.frame_stack ≠ [] then
    match Event.fromFrames b.pad_map b.frame_stack with
    | .ok event => (some event, b)
    | .error _ => (none, b)
  else (none, b)

/-- Wrapping of an `i32` arithmetic result into [-2^31, 2^31)
    (release-mode Rust semantics; a debug build panics on overflow). The
    source computes `config.last_run_number + 1` on `i32`, which wraps at
    `i32::MAX`. -/
def wrapI32 (x : Int) : Int :=
  (x + 2 ^ 31) % 2 ^ 32 - 2 ^ 31

/-- `create_subsets` from process.rs: start from `n_threads` empty
    subsets (the length is the usize value of the i32 `config.n_threads`)
    and push run `first + idx` onto subset `idx % n_threads` for each
    index of the range `first..(last + 1)`. The range's upper bound is
    computed in wrapping i32 arithmetic — at `last = i32::MAX` it wraps
    to `i32::MIN` and the range is empty; runs inside the range lie
    between `first` and `last` and need no further wrapping. (For
    `n_threads = 0` and a nonempty range the source panics on `idx % 0`;
    the claims only concern `n_threads ≥ 1`.) -/
def createSubsets (nThreads : Nat) (firstRunNumber lastRunNumber : Int) :
    List (List Int) :=
  (List.range (wrapI32 (lastRunNumber + 1) - firstRunNumber).toNat).foldl
    (fun subsets idx =>
      subsets.set (idx % nThreads)
        (subsets.getD (idx % nThreads) [] ++ [firstRunNumber + (idx : Int)]))
    (List.replicate nThreads [])

/-!  Statement helpers (derived observers used only to phrase claims). -/

/-- The comma-separated field count of a CSV line, with the
    `split_terminator` semantics of `GetChannelMap::new`. -/
def lineFieldCount (line : String) : Nat :=
  (splitTerminatorComma line).length

/-- Whether the first four fields of a CSV line parse as u8 (the reads
    `entries[0..3].parse()?` of `GetChannelMap::new`). -/
def firstFourParse (line : String) : Bool :=
  let entries := splitTerminatorComma line
  (parseU8 (entries.getD 0 "")).isSome && (parseU8 (entries.getD 1 "")).isSome
    && (parseU8 (entries.getD 2 "")).isSome
    && (parseU8 (entries.getD 3 "")).isSome

/-- The scaler counters passed to the writer, in write order. -/
def scalerCounters (acts : List WriteAction) : List Nat :=
  acts.filterMap (fun a =>
    match a with
    | .scalers _ c => some c
    | _ => none)

/-- The physics counters passed to the writer, in write order. -/
def physicsCounters (acts : List WriteAction) : List Nat :=
  acts.filterMap (fun a =>
    match a with
    | .physics _ c => some c
    | _ => none)

/-- The scaler items passed to the writer, in write order. -/
def scalerWrites (acts : List WriteAction) : List ScalersItem :=
  acts.filterMap (fun a =>
    match a with
    | .scalers s _ => some s
    | _ => none)

/-- The physics items passed to the writer, in write order. -/
def physicsWrites (acts : List WriteAction) : List PhysicsItem :=
  acts.filterMap (fun a =>
    match a with
    | .physics p _ => some p
    | _ => none)

/-- The prefix of a ring-item sequence up to and including the first
    `EndRun` item (the part `process_evt_data` can consume). -/
def takeUntilEndRun : List RingItem → List RingItem
  | [] => []
  | r :: rest =>
    if r.ring_type = .EndRun then [r] else r :: takeUntilEndRun rest

/-!  Concrete inputs used by counterexamples and witnesses. -/

/-- A 13-byte raw ring buffer whose type byte (offset 4) is 30 (Physics)
    and whose offset-8 byte is 20, but whose length is below the 28-byte
    header threshold. -/
def shortHeaderBuffer : List Nat :=
  [0, 0, 0, 0, 30, 0, 0, 0, 20, 0, 0, 0, 7]

/-- An SIS3300 physics payload: `group_enable_flags = 0x0002` (bit 1
    set), the unused daq register, then a valid group record — 0xFADC
    header, trigger word 0, samples count 1, one sample pair, 0xFFFF
    trailer. -/
def sis3300FailingBuffer : List Nat :=
  [2, 0, 0, 0, 0, 0, 0xdc, 0xfa, 0, 0, 0, 0, 1, 0, 0, 0,
    0x34, 0x02, 0x21, 0x00, 0xff, 0xff]

/-- A GET frame with a given event id and no samples. -/
def frameWithId (id : Nat) : GrawFrame := ⟨⟨0, id, 0, 0, 0⟩, []⟩

/-- An `EndRun` ring item whose payload decodes as stop = 0, time = 0. -/
def endRingEx : RingItem := ⟨20, [0, 0, 0, 0, 0, 0, 0, 0], .EndRun⟩

/-- A `Scalers` ring item whose payload decodes with zero counts. -/
def scalerRingEx : RingItem := ⟨36, List.replicate 24 0, .Scalers⟩

/-- A `Physics` ring item: one VMUSB chunk (tag 4) holding the 8 bytes
    event = 7, timestamp = 9. -/
def physRingEx : RingItem := ⟨22, [4, 0, 7, 0, 0, 0, 9, 0, 0, 0], .Physics⟩

/-- A `Dummy` ring item. -/
def dummyRingEx : RingItem := ⟨12, [], .Dummy⟩

/-!  ## Theorems -/

/-- Each encoded chunk contributes at least its two tag bytes. -/
lemma encode_flatten_length (cs : List Chunk) :
    2 * cs.length ≤ ((cs.map Chunk.encode).flatten).length := by
  induction cs with
  | nil => simp
  | cons c cs ih =>
    simp only [List.map_cons, List.flatten_cons, List.length_append,
      List.length_cons, Chunk.encode]
    omega

/-- `removeBoundariesGo` on a concatenation of well-formed chunks strips
    exactly the tag bytes and concatenates the data bytes in order (one
    fuel unit is spent per chunk). -/
lemma removeBoundariesGo_flatten (cs : List Chunk) (h : ∀ c ∈ cs, c.wf) :
    ∀ fuel, cs.length < fuel →
      removeBoundariesGo fuel ((cs.map Chunk.encode).flatten) =
        some ((cs.map Chunk.data).flatten) := by
  induction cs with
  | nil =>
    intro fuel _
    cases fuel <;> simp [removeBoundariesGo]
  | cons c cs ih =>
    intro fuel hf
    obtain ⟨f, rfl⟩ : ∃ f, fuel = f + 1 := ⟨fuel - 1, by omega⟩
    obtain ⟨ht, hd⟩ := h c (List.mem_cons_self c cs)
    have hrest : ∀ x ∈ cs, x.wf := fun x hx => h x (List.mem_cons_of_mem c hx)
    simp only [List.map_cons, List.flatten_cons]
    have henc : Chunk.encode c ++ (cs.map Chunk.encode).flatten =
        c.tag % 256 :: c.tag / 256 :: (c.data ++ (cs.map Chunk.encode).flatten) := by
      simp [Chunk.encode]
    rw [henc, removeBoundariesGo]
    have hval : c.tag % 256 + 256 * (c.tag / 256) = c.tag := by
      have := Nat.mod_add_div c.tag 256
      omega
    rw [hval]
    have hlen : c.tag % 4096 * 2 = c.data.length := hd.symm
    rw [hlen, List.drop_left, List.take_left,
      ih hrest f (by simpa using Nat.lt_of_succ_lt_succ hf)]

/-- C3: for every payload that is a concatenation of chunks — each a
    2-byte little-endian tag `t` followed by exactly `(t & 0xfff) * 2`
    data bytes — `RingItem::remove_boundaries` deletes exactly the tag
    bytes and leaves the data bytes concatenated in their original order
    (in particular a single tag covering the whole remainder is a no-op
    on the logical sample sequence). -/
theorem c3_remove_boundaries (item : RingItem) (chunks : List Chunk)
    (hbytes : item.bytes = (chunks.map Chunk.encode).flatten)
    (hwf : ∀ c ∈ chunks, c.wf) :
    item.removeBoundaries =
      some { item with bytes := (chunks.map Chunk.data).flatten } := by
  have hcount : chunks.length <
      ((chunks.map Chunk.encode).flatten).length + 1 := by
    have := encode_flatten_length chunks
    omega
  rw [RingItem.removeBoundaries, hbytes,
    removeBoundariesGo_flatten chunks hwf _ hcount]
  rfl

/-- Witness for C3 at a concrete single-chunk payload. -/
theorem c3_remove_boundaries_witness :
    RingItem.removeBoundaries ⟨22, [2, 0, 9, 8, 7, 6], .Physics⟩ =
      some ⟨22, [9, 8, 7, 6], .Physics⟩ := by
  have h := c3_remove_boundaries ⟨22, [2, 0, 9, 8, 7, 6], .Physics⟩
    [⟨2, [9, 8, 7, 6]⟩] (by decide) (by decide)
  simpa using h

/-- C9: `RingItem::try_from` returns `ItemSizeError` for buffers of
    length at most 4 and of length 9 to 11, but panics (unguarded
    `buffer[8]` index) for buffers of length 5 to 8. -/
theorem c9_tryfrom_partiality (buffer : List Nat) :
    (buffer.length ≤ 4 → RingItem.tryFrom buffer = .failure .ItemSizeError) ∧
    (5 ≤ buffer.length → buffer.length ≤ 8 →
      RingItem.tryFrom buffer = .panicked) ∧
    (9 ≤ buffer.length → buffer.length ≤ 11 →
      RingItem.tryFrom buffer = .failure .ItemSizeError) := by
  refine ⟨fun h => ?_, fun h5 h8 => ?_, fun h9 h11 => ?_⟩
  · simp only [RingItem.tryFrom, List.getElem?_eq_none h]
  · simp only [RingItem.tryFrom, List.getElem?_eq_getElem (show 4 < buffer.length by omega),
      List.getElem?_eq_none (show buffer.length ≤ 8 from h8)]
  · simp only [RingItem.tryFrom,
      List.getElem?_eq_getElem (show 4 < buffer.length by omega),
      List.getElem?_eq_getElem (show 8 < buffer.length by omega)]
    rw [if_neg (by rintro ⟨-, h28⟩; omega), if_neg (by omega)]

/-- Witness for C9 at buffers of lengths 4, 6 and 10. -/
theorem c9_tryfrom_partiality_witness :
    RingItem.tryFrom [0, 0, 0, 0] = .failure .ItemSizeError ∧
    RingItem.tryFrom [0, 0, 0, 0, 1, 0] = .panicked ∧
    RingItem.tryFrom [0, 0, 0, 0, 1, 0, 0, 0, 20, 0] =
      .failure .ItemSizeError :=
  ⟨(c9_tryfrom_partiality [0, 0, 0, 0]).1 (by decide),
    (c9_tryfrom_partiality [0, 0, 0, 0, 1, 0]).2.1 (by decide) (by decide),
    (c9_tryfrom_partiality [0, 0, 0, 0, 1, 0, 0, 0, 20, 0]).2.2 (by decide)
      (by decide)⟩

/-- C4 counterexample: on a 13-byte buffer whose offset-8 byte equals 20
    the conversion succeeds and strips 12 bytes, not 28 as the claim
    states (the 28-byte strip also needs `buffer.len() >= 28`). -/
theorem c4_tryfrom_counterexample :
    RingItem.tryFrom shortHeaderBuffer = .ok ⟨13, [7], .Physics⟩ ∧
    shortHeaderBuffer[8]? = some 20 ∧
    List.drop 28 shortHeaderBuffer = [] ∧
    ([7] : List Nat) ≠ [] := by decide

/-- C4 (amended): for every accepted buffer the ring type is determined
    by the byte at offset 4 via the documented mapping, and the payload
    is the buffer minus a 28-byte prefix when the offset-8 byte equals 20
    AND the buffer has at least 28 bytes, else minus a 12-byte prefix. -/
theorem c4_tryfrom_amended (buffer : List Nat) (item : RingItem)
    (h : RingItem.tryFrom buffer = .ok item) :
    item.size = buffer.length ∧
    (∃ b4, buffer[4]? = some b4 ∧
      item.ring_type =
        (if b4 = 1 then RingType.BeginRun
         else if b4 = 2 then RingType.EndRun
         else if b4 = 12 then RingType.Dummy
         else if b4 = 20 then RingType.Scalers
         else if b4 = 30 then RingType.Physics
         else if b4 = 31 then RingType.Counter
         else RingType.Invalid)) ∧
    ((buffer[8]? = some 20 ∧ 28 ≤ buffer.length) →
      item.bytes = buffer.drop 28) ∧
    (¬(buffer[8]? = some 20 ∧ 28 ≤ buffer.length) →
      item.bytes = buffer.drop 12) := by
  cases h4 : buffer[4]? with
  | none =>
    simp only [RingItem.tryFrom, h4] at h
    exact absurd h (by simp)
  | some b4 =>
    cases h8 : buffer[8]? with
    | none =>
      simp only [RingItem.tryFrom, h4, h8] at h
      exact absurd h (by simp)
    | some b8 =>
      simp only [RingItem.tryFrom, h4, h8] at h
      by_cases hc : b8 = 20 ∧ 28 ≤ buffer.length
      · rw [if_pos hc] at h
        obtain rfl : RingItem.mk buffer.length (buffer.drop 28)
            (RingType.fromU8 b4) = item := by
          cases h; rfl
        refine ⟨rfl, ⟨b4, rfl, rfl⟩, fun _ => rfl, fun hn => ?_⟩
        exact absurd ⟨by rw [hc.1], hc.2⟩ hn
      · rw [if_neg hc] at h
        by_cases h12 : 12 ≤ buffer.length
        · rw [if_pos h12] at h
          obtain rfl : RingItem.mk buffer.length (buffer.drop 12)
              (RingType.fromU8 b4) = item := by
            cases h; rfl
          refine ⟨rfl, ⟨b4, rfl, rfl⟩, fun hcc => ?_, fun _ => rfl⟩
          obtain ⟨h20, h28⟩ := hcc
          exact absurd ⟨by injection h20, h28⟩ hc
        · rw [if_neg h12] at h
          exact absurd h (by simp)

/-- Witness for C4 (amended) at the 13-byte buffer: the payload is the
    12-byte-stripped suffix. -/
theorem c4_tryfrom_amended_witness :
    (RingItem.mk 13 [7] .Physics).bytes = List.drop 12 shortHeaderBuffer :=
  (c4_tryfrom_amended shortHeaderBuffer ⟨13, [7], .Physics⟩ (by decide)).2.2.2
    (by decide)

/-- C1 (code bug): with `group_enable_flags = 0x0002` (bit 1 set) and a
    valid group record in the buffer, `SIS3300Item::extract_data` still
    skips every group — the source tests
    `group_enable_flags & (1 >> group)`, which is `& 0` for groups 1..3 —
    leaving all traces empty, `hasdata` false, and only the 6 flag/daq
    bytes consumed, although `2 & (1 << 1) ≠ 0` says group 1 is enabled. -/
theorem c1_sis3300_group_enable_bug :
    SIS3300Item.extractData SIS3300Item.new ⟨sis3300FailingBuffer, 0⟩ =
      some (⟨List.replicate 8 [], 0, 8, false⟩, ⟨sis3300FailingBuffer, 6⟩) ∧
    (2 : Nat) &&& (1 <<< 1) ≠ 0 ∧
    (2 : Nat) &&& (1 >>> 1) = 0 := by decide

/-- Setting index `m` of a mapped range to an updated value is the map of
    the pointwise-updated function. -/
lemma set_map_range (n : Nat) (g : Nat → List Int) (m : Nat) (_hm : m < n)
    (x : Int) :
    ((List.range n).map g).set m (g m ++ [x]) =
      (List.range n).map (fun i => if i = m then g i ++ [x] else g i) := by
  apply List.ext_getElem
  · simp
  intro j hj1 hj2
  rw [List.getElem_set]
  by_cases hmj : m = j
  · subst hmj
    rw [if_pos rfl, List.getElem_map, List.getElem_range, if_pos rfl]
  · rw [if_neg hmj, List.getElem_map, List.getElem_range, List.getElem_map,
      List.getElem_range, if_neg (fun hh => hmj hh.symm)]

/-- Divisibility test behind the round-robin size count: for `i < n`,
    `n` divides `c + n - i` exactly when `c % n = i`. -/
lemma dvd_iff_mod (n : Nat) (hn : 0 < n) (i c : Nat) (hi : i < n) :
    n ∣ c + n - i ↔ c % n = i := by
  rcases le_or_lt i c with hle | hlt
  · rw [show c + n - i = c - i + n by omega, Nat.dvd_add_self_right]
    constructor
    · intro hd
      have hmod : i % n = c % n := (Nat.modEq_iff_dvd' hle).mpr hd
      rw [Nat.mod_eq_of_lt hi] at hmod
      omega
    · intro hmod
      refine (Nat.modEq_iff_dvd' hle).mp ?_
      show i % n = c % n
      rw [Nat.mod_eq_of_lt hi, hmod]
  · constructor
    · intro hd
      exfalso
      have h1 : 0 < c + n - i := by omega
      have h2 : c + n - i < n := by omega
      exact absurd (Nat.le_of_dvd h1 hd) (by omega)
    · intro hmod
      exfalso
      have hc : c % n = c := Nat.mod_eq_of_lt (lt_trans hlt hi)
      omega

/-- The number of indices below `c` congruent to `i` modulo `n`. -/
lemma length_filter_mod (n : Nat) (hn : 0 < n) (i : Nat) (hi : i < n) :
    ∀ c : Nat, ((List.range c).filter (fun k => k % n = i)).length
      = (c + n - 1 - i) / n := by
  intro c
  induction c with
  | zero =>
    rw [List.range_zero, List.filter_nil]
    exact (Nat.div_eq_of_lt (by omega)).symm
  | succ c ih =>
    rw [List.range_succ, List.filter_append, List.length_append, ih]
    have hstep : (List.filter (fun k => decide (k % n = i)) [c]).length
        = if c % n = i then 1 else 0 := by
      by_cases h : c % n = i <;> simp [h]
    rw [hstep, show c + 1 + n - 1 - i = (c + n - 1 - i) + 1 by omega,
      Nat.succ_div, show c + n - 1 - i + 1 = c + n - i by omega]
    congr 1
    exact if_congr (dvd_iff_mod n hn i c hi).symm rfl rfl

/-- `wrapI32` is the identity on values already in i32 range. -/
lemma wrapI32_eq_self (x : Int) (hlo : -(2 ^ 31) ≤ x) (hhi : x < 2 ^ 31) :
    wrapI32 x = x := by
  unfold wrapI32
  rw [Int.emod_eq_of_lt (by omega) (by omega)]
  omega

/-- Closed form of `create_subsets`: subset `i` holds, in order, the runs
    whose zero-based index is congruent to `i` modulo `n_threads`. -/
lemma createSubsets_eq (n : Nat) (hn : 0 < n) (first last : Int) :
    createSubsets n first last =
      (List.range n).map (fun i =>
        ((List.range (wrapI32 (last + 1) - first).toNat).filter
          (fun k => k % n = i)).map (fun k : Nat => first + (k : Int))) := by
  unfold createSubsets
  generalize (wrapI32 (last + 1) - first).toNat = cnt
  induction cnt with
  | zero =>
    apply List.ext_getElem <;> simp
  | succ c ih =>
    rw [List.range_succ, List.foldl_append, ih, List.foldl_cons,
      List.foldl_nil]
    have hcn : c % n < n := Nat.mod_lt c hn
    have hgetD : (((List.range n).map (fun i =>
        ((List.range c).filter (fun k => k % n = i)).map
          (fun k : Nat => first + (k : Int))))).getD (c % n) [] =
        ((List.range c).filter (fun k => k % n = c % n)).map
          (fun k : Nat => first + (k : Int)) := by
      rw [List.getD_eq_getElem _ _ (by simpa using hcn), List.getElem_map,
        List.getElem_range]
    rw [hgetD, set_map_range n _ (c % n) hcn (first + (c : Int))]
    apply List.map_congr_left
    intro i hi
    rw [List.filter_append, List.map_append]
    by_cases hci : i = c % n
    · subst hci
      rw [if_pos rfl]
      congr 1
      simp
    · rw [if_neg hci]
      have hne : ¬c % n = i := fun hh => hci hh.symm
      have hflt : List.filter (fun k => decide (k % n = i)) [c] = [] := by
        simp [hne]
      rw [hflt, List.map_nil, List.append_nil]

/-- The `i`-th subset of `create_subsets`, for `i < n_threads`. -/
lemma createSubsets_getD (n : Nat) (hn : 0 < n) (first last : Int)
    (i : Nat) (hi : i < n) :
    (createSubsets n first last).getD i [] =
      ((List.range (wrapI32 (last + 1) - first).toNat).filter
        (fun k => k % n = i)).map (fun k : Nat => first + (k : Int)) := by
  rw [createSubsets_eq n hn first last,
    List.getD_eq_getElem _ _ (by simpa using hi), List.getElem_map,
    List.getElem_range]

/-- Membership in a subset of `create_subsets`. -/
lemma createSubsets_mem (n : Nat) (hn : 0 < n) (first last : Int)
    (i : Nat) (hi : i < n) (x : Int) :
    x ∈ (createSubsets n first last).getD i [] ↔
      ∃ k : Nat, k < (wrapI32 (last + 1) - first).toNat ∧ k % n = i ∧
        x = first + (k : Int) := by
  rw [createSubsets_getD n hn first last i hi]
  simp only [List.mem_map, List.mem_filter, List.mem_range,
    decide_eq_true_eq]
  constructor
  · rintro ⟨k, ⟨hk, hkm⟩, rfl⟩
    exact ⟨k, hk, hkm, rfl⟩
  · rintro ⟨k, hk, hkm, rfl⟩
    exact ⟨k, ⟨hk, hkm⟩, rfl⟩

/-- C8 counterexample: at `last_run_number = i32::MAX` (2147483647), a
    representable config, the source's `last_run_number + 1` wraps to
    `i32::MIN` (release build; a debug build panics), the run range is
    empty, and the single subset is empty even though the inclusive run
    range `{2147483647}` is not — the claimed union property fails. -/
theorem c8_create_subsets_counterexample :
    createSubsets 1 2147483647 2147483647 = [[]] ∧
    (2147483647 : Int) ∉ (createSubsets 1 2147483647 2147483647).getD 0 [] ∧
    (2147483647 : Int) ≤ 2147483647 ∧ (1 : Nat) ≤ 1 := by decide

/-- C8 (amended): for `n_threads ≥ 1` and a run range whose upper bound
    `last_run_number + 1` does not overflow i32, `create_subsets` returns
    exactly `n_threads` subsets that are pairwise disjoint, whose union
    is the inclusive run range, whose sizes differ by at most one, and
    which place run `first + i` into subset `i % n_threads`; in
    particular `n_threads = 3, first = 0, last = 6` gives
    `[[0,3,6],[1,4],[2,5]]`. -/
theorem c8_create_subsets (n : Nat) (first last : Int) (hn : 1 ≤ n)
    (hlo : -(2 ^ 31) ≤ last + 1) (hhi : last + 1 < 2 ^ 31) :
    (createSubsets n first last).length = n ∧
    (∀ i j, i < n → j < n → i ≠ j → ∀ x : Int,
      x ∈ (createSubsets n first last).getD i [] →
      x ∉ (createSubsets n first last).getD j []) ∧
    (∀ x : Int,
      (∃ i, i < n ∧ x ∈ (createSubsets n first last).getD i []) ↔
        first ≤ x ∧ x ≤ last) ∧
    (∀ i j, i < n → j < n →
      ((createSubsets n first last).getD i []).length ≤
        ((createSubsets n first last).getD j []).length + 1) ∧
    (∀ k : Nat, (k : Int) ≤ last - first →
      first + (k : Int) ∈ (createSubsets n first last).getD (k % n) []) ∧
    createSubsets 3 0 6 = [[0, 3, 6], [1, 4], [2, 5]] := by
  have hn0 : 0 < n := hn
  have hw : wrapI32 (last + 1) = last + 1 := wrapI32_eq_self (last + 1) hlo hhi
  have hmem : ∀ (i : Nat), i < n → ∀ x : Int,
      (x ∈ (createSubsets n first last).getD i [] ↔
        ∃ k : Nat, k < (last + 1 - first).toNat ∧ k % n = i ∧
          x = first + (k : Int)) := by
    intro i hi x
    rw [createSubsets_mem n hn0 first last i hi x, hw]
  refine ⟨?_, ?_, ?_, ?_, ?_, by decide⟩
  · rw [createSubsets_eq n hn0 first last]
    simp
  · intro i j hi hj hij x hxi hxj
    obtain ⟨k, hk, hkm, hkx⟩ := (hmem i hi x).mp hxi
    obtain ⟨k2, hk2, hk2m, hk2x⟩ := (hmem j hj x).mp hxj
    have : k = k2 := by omega
    subst this
    exact hij (hkm ▸ hk2m ▸ rfl)
  · intro x
    constructor
    · rintro ⟨i, hi, hx⟩
      obtain ⟨k, hk, -, rfl⟩ := (hmem i hi x).mp hx
      omega
    · rintro ⟨h1, h2⟩
      refine ⟨(x - first).toNat % n, Nat.mod_lt _ hn0, ?_⟩
      rw [hmem ((x - first).toNat % n) (Nat.mod_lt _ hn0) x]
      exact ⟨(x - first).toNat, by omega, rfl, by omega⟩
  · intro i j hi hj
    rw [createSubsets_getD n hn0 first last i hi,
      createSubsets_getD n hn0 first last j hj, List.length_map,
      List.length_map, length_filter_mod n hn0 i hi,
      length_filter_mod n hn0 j hj]
    set cnt := (wrapI32 (last + 1) - first).toNat
    calc (cnt + n - 1 - i) / n ≤ ((cnt + n - 1 - j) + n) / n :=
          Nat.div_le_div_right (by omega)
      _ = (cnt + n - 1 - j) / n + 1 := Nat.add_div_right _ hn0
  · intro k hk
    rw [hmem (k % n) (Nat.mod_lt _ hn0)]
    exact ⟨k, by omega, rfl, rfl⟩

/-- Witness for C8 (amended) at `n_threads = 3, first = 0, last = 6`. -/
theorem c8_create_subsets_witness :
    (createSubsets 3 0 6).length = 3 ∧
    (0 : Int) + ((4 : Nat) : Int) ∈ (createSubsets 3 0 6).getD (4 % 3) [] :=
  ⟨(c8_create_subsets 3 0 6 (by decide) (by decide) (by decide)).1,
    (c8_create_subsets 3 0 6 (by decide) (by decide) (by decide)).2.2.2.2.1 4
      (by decide)⟩

/-- One `traceStep` changes only the traces of an event. -/
lemma traceStep_fields (pm : GetChannelMap) (fr : GrawFrame) (ev : Event)
    (d : GrawData) :
    (traceStep pm fr ev d).event_id = ev.event_id ∧
      (traceStep pm fr ev d).nframes = ev.nframes := by
  unfold traceStep
  split
  · exact ⟨rfl, rfl⟩
  · split <;> exact ⟨rfl, rfl⟩

/-- Folding `traceStep` over the samples changes only the traces. -/
lemma foldl_traceStep (pm : GetChannelMap) (fr : GrawFrame) :
    ∀ (data : List GrawData) (ev : Event),
      (data.foldl (traceStep pm fr) ev).event_id = ev.event_id ∧
        (data.foldl (traceStep pm fr) ev).nframes = ev.nframes := by
  intro data
  induction data with
  | nil => intro ev; exact ⟨rfl, rfl⟩
  | cons d rest ih =>
    intro ev
    rw [List.foldl_cons]
    obtain ⟨h1, h2⟩ := ih (traceStep pm fr ev d)
    obtain ⟨g1, g2⟩ := traceStep_fields pm fr ev d
    exact ⟨h1.trans g1, h2.trans g2⟩

/-- `appendFrameBody` keeps the event id and bumps `nframes` by one. -/
lemma appendFrameBody_fields (pm : GetChannelMap) (ev1 : Event)
    (fr : GrawFrame) :
    (Event.appendFrameBody pm ev1 fr).event_id = ev1.event_id ∧
      (Event.appendFrameBody pm ev1 fr).nframes = ev1.nframes + 1 := by
  unfold Event.appendFrameBody
  by_cases hc : fr.header.cobo_id = COBO_WITH_TIMESTAMP
  · rw [if_pos hc]
    dsimp only
    obtain ⟨h1, h2⟩ :=
      foldl_traceStep pm fr fr.data { ev1 with timestampother := fr.header.event_time }
    exact ⟨h1, by rw [h2]⟩
  · rw [if_neg hc]
    dsimp only
    obtain ⟨h1, h2⟩ :=
      foldl_traceStep pm fr fr.data { ev1 with timestamp := fr.header.event_time }
    exact ⟨h1, by rw [h2]⟩

/-- `Event::append_frame` succeeds on a frame whose event id matches the
    event under construction (or on a fresh event), and the result keeps
    the common id. -/
lemma appendFrame_ok (pm : GetChannelMap) (ev : Event) (fr : GrawFrame)
    (cid : Nat) (hfr : fr.header.event_id = cid)
    (hinv : ev.nframes = 0 ∨ ev.event_id = cid) :
    ∃ ev2, Event.appendFrame pm ev fr = .ok ev2 ∧
      ev2.nframes = ev.nframes + 1 ∧ ev2.event_id = cid := by
  unfold Event.appendFrame
  by_cases h0 : ev.nframes = 0
  · rw [if_pos h0]
    obtain ⟨h1, h2⟩ := appendFrameBody_fields pm
      { ev with event_id := fr.header.event_id } fr
    exact ⟨_, rfl, by rw [h2], by rw [h1]; exact hfr⟩
  · rcases hinv with hzero | hid
    · exact absurd hzero h0
    rw [if_neg h0, if_neg (by simp [hid, hfr])]
    obtain ⟨h1, h2⟩ := appendFrameBody_fields pm ev fr
    exact ⟨_, rfl, by rw [h2], by rw [h1]; exact hid⟩

/-- `Event::new` succeeds when every frame carries the same event id. -/
lemma fromFrames_ok_aux (pm : GetChannelMap) (cid : Nat) :
    ∀ (frames : List GrawFrame) (ev : Event),
      (∀ fr ∈ frames, fr.header.event_id = cid) →
      (ev.nframes = 0 ∨ ev.event_id = cid) →
      ∃ ev2, frames.foldlM (Event.appendFrame pm) ev = .ok ev2 := by
  intro frames
  induction frames with
  | nil => intro ev h hinv; exact ⟨ev, rfl⟩
  | cons fr rest ih =>
    intro ev h hinv
    obtain ⟨ev1, hev1, hn, hid⟩ :=
      appendFrame_ok pm ev fr cid (h fr (List.mem_cons_self _ _)) hinv
    obtain ⟨ev2, hev2⟩ :=
      ih ev1 (fun x hx => h x (List.mem_cons_of_mem _ hx)) (Or.inr hid)
    refine ⟨ev2, ?_⟩
    rw [List.foldlM_cons, hev1]
    exact hev2

/-- `Event::new` succeeds on an id-consistent frame list. -/
lemma fromFrames_ok (pm : GetChannelMap) (frames : List GrawFrame)
    (cid : Nat) (h : ∀ fr ∈ frames, fr.header.event_id = cid) :
    ∃ ev, Event.fromFrames pm frames = .ok ev :=
  fromFrames_ok_aux pm cid frames ⟨0, [], 0, 0, 0⟩ h (Or.inl rfl)

/-- C2: `EventBuilder::append_frame` implements the documented state
    machine: with no current event id it records the frame's id, pushes
    and returns no event; a frame with a smaller id fails with
    `EventOutOfOrder(frame, current)`; a larger id builds the event from
    the stacked frames and restarts the stack with the new frame; an
    equal id just pushes. -/
theorem c2_append_frame (b : EventBuilder) (f : GrawFrame) :
    (b.current_event_id = none →
      b.appendFrame f = .ok (none,
        { b with current_event_id := some f.header.event_id,
                 frame_stack := b.frame_stack ++ [f] })) ∧
    (∀ cid, b.current_event_id = some cid →
      (f.header.event_id < cid →
        b.appendFrame f = .error (.EventOutOfOrder f.header.event_id cid)) ∧
      (cid < f.header.event_id →
        (∀ fr ∈ b.frame_stack, fr.header.event_id = cid) →
        ∃ ev, Event.fromFrames b.pad_map b.frame_stack = .ok ev ∧
          b.appendFrame f = .ok (some ev,
            { b with current_event_id := some f.header.event_id,
                     frame_stack := [f] })) ∧
      (f.header.event_id = cid →
        b.appendFrame f = .ok (none,
          { b with frame_stack := b.frame_stack ++ [f] }))) := by
  refine ⟨fun hnone => ?_,
    fun cid hsome => ⟨fun hlt => ?_, fun hgt hcons => ?_, fun heq => ?_⟩⟩
  · unfold EventBuilder.appendFrame
    rw [hnone]
  · simp only [EventBuilder.appendFrame, hsome]
    rw [if_pos hlt]
  · obtain ⟨ev, hev⟩ := fromFrames_ok b.pad_map b.frame_stack cid hcons
    refine ⟨ev, hev, ?_⟩
    simp only [EventBuilder.appendFrame, hsome]
    rw [if_neg (by omega), if_pos hgt, hev]
  · simp only [EventBuilder.appendFrame, hsome]
    rw [if_neg (by omega), if_neg (by omega)]

/-- Witness for C2: after building event 3, a frame with event id 2
    yields `EventOutOfOrder(2, 3)` (scenario S4), and a frame with event
    id 5 emits the completed event and restarts the stack. -/
theorem c2_append_frame_witness :
    EventBuilder.appendFrame ⟨some 3, ⟨[]⟩, [frameWithId 3]⟩ (frameWithId 2) =
      .error (.EventOutOfOrder 2 3) ∧
    EventBuilder.appendFrame ⟨some 3, ⟨[]⟩, [frameWithId 3]⟩ (frameWithId 5) =
      .ok (some ⟨1, [], 0, 0, 3⟩, ⟨some 5, ⟨[]⟩, [frameWithId 5]⟩) := by
  constructor
  · exact ((c2_append_frame ⟨some 3, ⟨[]⟩, [frameWithId 3]⟩
      (frameWithId 2)).2 3 rfl).1 (by decide)
  · obtain ⟨ev, hev, happ⟩ := ((c2_append_frame ⟨some 3, ⟨[]⟩, [frameWithId 3]⟩
      (frameWithId 5)).2 3 rfl).2.1 (by decide) (by decide)
    have hev2 : Event.fromFrames (⟨[]⟩ : GetChannelMap) [frameWithId 3] =
        .ok ⟨1, [], 0, 0, 3⟩ := rfl
    rw [hev2] at hev
    obtain rfl := Except.ok.inj hev
    exact happ

/-- C10: `flush_final_event` returns the event built from the stacked
    frames when the stack is non-empty (and id-consistent, which every
    reachable builder state is) and `none` when it is empty, and leaves
    the builder state unchanged, so an immediate second call returns the
    same result. -/
theorem c10_flush_final_event (b : EventBuilder) :
    (b.frame_stack = [] → b.flushFinalEvent = (none, b)) ∧
    (b.frame_stack ≠ [] →
      (∀ f1 ∈ b.frame_stack, ∀ f2 ∈ b.frame_stack,
        f1.header.event_id = f2.header.event_id) →
      ∃ ev, Event.fromFrames b.pad_map b.frame_stack = .ok ev ∧
        b.flushFinalEvent = (some ev, b)) ∧
    (b.flushFinalEvent).2 = b ∧
    ((b.flushFinalEvent).2).flushFinalEvent = b.flushFinalEvent := by
  have hsnd : (b.flushFinalEvent).2 = b := by
    unfold EventBuilder.flushFinalEvent
    split
    · split <;> rfl
    · rfl
  refine ⟨fun hemp => ?_, fun hne hcons => ?_, hsnd, by rw [hsnd]⟩
  · unfold EventBuilder.flushFinalEvent
    rw [if_neg (fun hc => hc hemp)]
  · obtain ⟨f0, rest, hstack⟩ : ∃ f0 rest, b.frame_stack = f0 :: rest := by
      cases hs : b.frame_stack with
      | nil => exact absurd hs hne
      | cons a l => exact ⟨a, l, rfl⟩
    have hall : ∀ fr ∈ b.frame_stack,
        fr.header.event_id = f0.header.event_id := by
      intro fr hfr
      exact hcons fr hfr f0 (by rw [hstack]; exact List.mem_cons_self _ _)
    obtain ⟨ev, hev⟩ :=
      fromFrames_ok b.pad_map b.frame_stack f0.header.event_id hall
    refine ⟨ev, hev, ?_⟩
    unfold EventBuilder.flushFinalEvent
    rw [if_pos hne, hev]

/-- Witness for C10 at a one-frame stack: the flush returns the built
    event and the unchanged builder. -/
theorem c10_flush_final_event_witness :
    EventBuilder.flushFinalEvent ⟨some 3, ⟨[]⟩, [frameWithId 3]⟩ =
      (some ⟨1, [], 0, 0, 3⟩, ⟨some 3, ⟨[]⟩, [frameWithId 3]⟩) := by
  obtain ⟨ev, hev, hfl⟩ :=
    (c10_flush_final_event ⟨some 3, ⟨[]⟩, [frameWithId 3]⟩).2.1 (by decide)
      (by decide)
  have hev2 : Event.fromFrames (⟨[]⟩ : GetChannelMap) [frameWithId 3] =
      .ok ⟨1, [], 0, 0, 3⟩ := rfl
  rw [hev2] at hev
  obtain rfl := Except.ok.inj hev
  exact hfl

/-- `Except.ok` feeds its value to a monadic continuation. -/
lemma exceptBind_ok {ε α β : Type} (a : α) (k : α → Except ε β) :
    (Except.ok a >>= k) = k a := rfl

/-- `Except.error` short-circuits a monadic continuation. -/
lemma exceptBind_err {ε α β : Type} (e : ε) (k : α → Except ε β) :
    ((Except.error e : Except ε α) >>= k) = Except.error e := rfl

/-- A line that parses as a row makes `processLine` insert exactly that
    row's uuid/hardware-id pair. -/
lemma processLine_of_rowParse (pm : GetChannelMap) (line : String)
    (cb ad ag ch : Nat) (det : Detector)
    (h : rowParse line = some (cb, ad, ag, ch, det)) :
    processLine pm line =
      .ok (pm.insert (generateUuid cb ad ag ch) ⟨cb, ad, ag, ch, det⟩) := by
  unfold rowParse at h
  unfold processLine
  by_cases h5 : (splitTerminatorComma line).length = 5
  · rw [if_pos h5] at h
    simp only [bind, Option.bind_eq_some, Option.some.injEq, Prod.mk.injEq] at h
    obtain ⟨cb0, hcb, ad0, had, ag0, hag, ch0, hch, p, hp, hc1, hc2, hc3, hc4,
      hdet⟩ := h
    subst hc1; subst hc2; subst hc3; subst hc4; subst hdet
    rw [if_neg (by omega)]
    simp only [hcb, had, hag, hch, hp]
    rw [if_pos h5]
  · rw [if_neg h5] at h
    by_cases h7 : (splitTerminatorComma line).length = 7
    · rw [if_pos h7] at h
      simp only [bind, Option.bind_eq_some, Option.some.injEq, Prod.mk.injEq] at h
      obtain ⟨cb0, hcb, ad0, had, ag0, hag, ch0, hch, sch, hsch, si, hsi, hc1,
        hc2, hc3, hc4, hdet⟩ := h
      subst hc1; subst hc2; subst hc3; subst hc4; subst hdet
      rw [if_neg (by omega)]
      simp only [hcb, had, hag, hch, hsch, hsi]
      rw [if_neg h5, if_pos h7]
    · rw [if_neg h7] at h
      exact absurd h (by simp)

/-- A successful `processLine` comes from a parsed row and inserts
    exactly that row. -/
lemma rowParse_of_processLine (pm pm2 : GetChannelMap) (line : String)
    (h : processLine pm line = .ok pm2) :
    ∃ cb ad ag ch det, rowParse line = some (cb, ad, ag, ch, det) ∧
      pm2 = pm.insert (generateUuid cb ad ag ch) ⟨cb, ad, ag, ch, det⟩ := by
  unfold processLine at h
  by_cases hlt : (splitTerminatorComma line).length < 5
  · rw [if_pos hlt] at h
    exact absurd h (by simp)
  rw [if_neg hlt] at h
  cases hp0 : parseU8 ((splitTerminatorComma line).getD 0 "") with
  | none => simp only [hp0] at h; exact absurd h (by simp)
  | some cb =>
  cases hp1 : parseU8 ((splitTerminatorComma line).getD 1 "") with
  | none => simp only [hp0, hp1] at h; exact absurd h (by simp)
  | some ad =>
  cases hp2 : parseU8 ((splitTerminatorComma line).getD 2 "") with
  | none => simp only [hp0, hp1, hp2] at h; exact absurd h (by simp)
  | some ag =>
  cases hp3 : parseU8 ((splitTerminatorComma line).getD 3 "") with
  | none => simp only [hp0, hp1, hp2, hp3] at h; exact absurd h (by simp)
  | some ch =>
  simp only [hp0, hp1, hp2, hp3] at h
  by_cases h5 : (splitTerminatorComma line).length = 5
  · rw [if_pos h5] at h
    cases hp4 : parseUsize ((splitTerminatorComma line).getD 4 "") with
    | none => simp only [hp4] at h; exact absurd h (by simp)
    | some p =>
      simp only [hp4] at h
      refine ⟨cb, ad, ag, ch, .Pad p, ?_, (Except.ok.inj h).symm⟩
      unfold rowParse
      rw [if_pos h5]
      simp only [bind, hp0, hp1, hp2, hp3, hp4, Option.some_bind]
  · rw [if_neg h5] at h
    by_cases h7 : (splitTerminatorComma line).length = 7
    · rw [if_pos h7] at h
      cases hp6 : parseUsize ((splitTerminatorComma line).getD 6 "") with
      | none => simp only [hp6] at h; exact absurd h (by simp)
      | some sch =>
        simp only [hp6] at h
        cases hpsi : SiliconID.mk? ((splitTerminatorComma line).getD 4 "")
            ((splitTerminatorComma line).getD 5 "") sch with
        | none => simp only [hpsi] at h; exact absurd h (by simp)
        | some si =>
          simp only [hpsi] at h
          refine ⟨cb, ad, ag, ch, .Silicon si, ?_, (Except.ok.inj h).symm⟩
          unfold rowParse
          rw [if_neg h5, if_pos h7]
          simp only [bind, hp0, hp1, hp2, hp3, hp6, hpsi, Option.some_bind]
    · rw [if_neg h7] at h
      exact absurd h (by simp)

/-- On a line whose field count is neither 5 nor 7, `processLine` always
    fails, and fails specifically with `BadFileFormat` when the count is
    below 5 or the first four fields parse as u8. -/
lemma processLine_badCount (pm : GetChannelMap) (line : String)
    (h5 : lineFieldCount line ≠ 5) (h7 : lineFieldCount line ≠ 7) :
    (∀ pm2, processLine pm line ≠ .ok pm2) ∧
    ((lineFieldCount line < 5 ∨ firstFourParse line = true) →
      processLine pm line = .error .BadFileFormat) := by
  unfold lineFieldCount at h5 h7
  unfold processLine
  by_cases hlt : (splitTerminatorComma line).length < 5
  · rw [if_pos hlt]
    exact ⟨fun pm2 hcon => Except.noConfusion hcon, fun _ => rfl⟩
  rw [if_neg hlt]
  have hor : (lineFieldCount line < 5 ∨ firstFourParse line = true) →
      firstFourParse line = true := by
    intro hh
    rcases hh with hl | hf
    · exact absurd hl (by unfold lineFieldCount; omega)
    · exact hf
  cases hp0 : parseU8 ((splitTerminatorComma line).getD 0 "") with
  | none =>
    simp only [hp0]
    refine ⟨fun pm2 hcon => Except.noConfusion hcon, fun hh => ?_⟩
    have hf := hor hh
    unfold firstFourParse at hf
    simp only [Bool.and_eq_true] at hf
    obtain ⟨⟨⟨f0, f1⟩, f2⟩, f3⟩ := hf
    rw [hp0] at f0
    exact Bool.noConfusion f0
  | some cb =>
  cases hp1 : parseU8 ((splitTerminatorComma line).getD 1 "") with
  | none =>
    simp only [hp0, hp1]
    refine ⟨fun pm2 hcon => Except.noConfusion hcon, fun hh => ?_⟩
    have hf := hor hh
    unfold firstFourParse at hf
    simp only [Bool.and_eq_true] at hf
    obtain ⟨⟨⟨f0, f1⟩, f2⟩, f3⟩ := hf
    rw [hp1] at f1
    exact Bool.noConfusion f1
  | some ad =>
  cases hp2 : parseU8 ((splitTerminatorComma line).getD 2 "") with
  | none =>
    simp only [hp0, hp1, hp2]
    refine ⟨fun pm2 hcon => Except.noConfusion hcon, fun hh => ?_⟩
    have hf := hor hh
    unfold firstFourParse at hf
    simp only [Bool.and_eq_true] at hf
    obtain ⟨⟨⟨f0, f1⟩, f2⟩, f3⟩ := hf
    rw [hp2] at f2
    exact Bool.noConfusion f2
  | some ag =>
  cases hp3 : parseU8 ((splitTerminatorComma line).getD 3 "") with
  | none =>
    simp only [hp0, hp1, hp2, hp3]
    refine ⟨fun pm2 hcon => Except.noConfusion hcon, fun hh => ?_⟩
    have hf := hor hh
    unfold firstFourParse at hf
    simp only [Bool.and_eq_true] at hf
    obtain ⟨⟨⟨f0, f1⟩, f2⟩, f3⟩ := hf
    rw [hp3] at f3
    exact Bool.noConfusion f3
  | some ch =>
  simp only [hp0, hp1, hp2, hp3]
  rw [if_neg h5, if_neg h7]
  exact ⟨fun pm2 hcon => Except.noConfusion hcon, fun _ => rfl⟩

/-- Lookup after an insert: the newest binding for the key wins, other
    keys are unaffected. -/
lemma find_insert (pm : GetChannelMap) (u u2 : Nat) (hw2 : HardwareID) :
    (pm.insert u2 hw2).find u = if u2 = u then some hw2 else pm.find u := by
  unfold GetChannelMap.insert GetChannelMap.find
  by_cases h : u2 = u
  · subst h
    simp [List.find?]
  · have hbeq : (u2 == u) = false := beq_eq_false_iff_ne.mpr h
    simp [List.find?, hbeq, h]

/-- If some line of the file can never be processed successfully, the
    whole fold fails. -/
lemma foldlM_error_of_mem :
    ∀ (ls : List String) (ℓ : String), ℓ ∈ ls →
      (∀ pm pm2, processLine pm ℓ ≠ .ok pm2) →
      ∀ pm0, ∃ e, ls.foldlM processLine pm0 = .error e := by
  intro ls
  induction ls with
  | nil => intro ℓ hmem _ _; exact absurd hmem (List.not_mem_nil _)
  | cons a rest ih =>
    intro ℓ hmem hbad pm0
    cases hpl : processLine pm0 a with
    | error e =>
      exact ⟨e, by rw [List.foldlM_cons, hpl, exceptBind_err]⟩
    | ok pm1 =>
      rcases List.mem_cons.mp hmem with rfl | hmem2
      · exact absurd hpl (hbad pm0 pm1)
      · obtain ⟨e, he⟩ := ih ℓ hmem2 hbad pm1
        exact ⟨e, by rw [List.foldlM_cons, hpl, exceptBind_ok, he]⟩

/-- A fold over lines that all parse as rows succeeds. -/
lemma foldlM_ok_of_all :
    ∀ (ls : List String), (∀ ℓ ∈ ls, (rowParse ℓ).isSome) →
      ∀ pm0, ∃ pm2, ls.foldlM processLine pm0 = .ok pm2 := by
  intro ls
  induction ls with
  | nil => intro _ pm0; exact ⟨pm0, rfl⟩
  | cons a rest ih =>
    intro hall pm0
    obtain ⟨⟨cb, ad, ag, ch, det⟩, hrow⟩ :=
      Option.isSome_iff_exists.mp (hall a (List.mem_cons_self _ _))
    have hpl := processLine_of_rowParse pm0 a cb ad ag ch det hrow
    obtain ⟨pm2, h2⟩ := ih (fun x hx => hall x (List.mem_cons_of_mem _ hx))
      (pm0.insert (generateUuid cb ad ag ch) ⟨cb, ad, ag, ch, det⟩)
    exact ⟨pm2, by rw [List.foldlM_cons, hpl, exceptBind_ok, h2]⟩

/-- A fold whose prefix is well formed fails with `BadFileFormat` on the
    first bad-count line. -/
lemma foldlM_prefix_bff :
    ∀ (pre : List String) (bad : String) (rest : List String),
      (∀ ℓ ∈ pre, (rowParse ℓ).isSome) →
      (∀ pm, processLine pm bad = .error .BadFileFormat) →
      ∀ pm0, (pre ++ bad :: rest).foldlM processLine pm0 =
        .error .BadFileFormat := by
  intro pre
  induction pre with
  | nil =>
    intro bad rest _ hbad pm0
    rw [List.nil_append, List.foldlM_cons, hbad pm0, exceptBind_err]
  | cons a pre2 ih =>
    intro bad rest hpre hbad pm0
    obtain ⟨⟨cb, ad, ag, ch, det⟩, hrow⟩ :=
      Option.isSome_iff_exists.mp (hpre a (List.mem_cons_self _ _))
    rw [List.cons_append, List.foldlM_cons,
      processLine_of_rowParse pm0 a cb ad ag ch det hrow, exceptBind_ok]
    exact ih bad rest (fun x hx => hpre x (List.mem_cons_of_mem _ hx)) hbad _

/-- After a successful fold, the map answers a row's uuid with that row's
    hardware id, provided no other row of the file collides on the uuid
    with a different value. -/
lemma channelMap_find_after_fold (cb ad ag ch : Nat) (det : Detector) :
    ∀ (ls : List String) (pm0 pm : GetChannelMap),
      ls.foldlM processLine pm0 = .ok pm →
      ((∃ ℓ ∈ ls, rowParse ℓ = some (cb, ad, ag, ch, det)) ∨
        pm0.find (generateUuid cb ad ag ch) = some ⟨cb, ad, ag, ch, det⟩) →
      (∀ ℓ₂ ∈ ls, ∀ cb₂ ad₂ ag₂ ch₂ det₂,
        rowParse ℓ₂ = some (cb₂, ad₂, ag₂, ch₂, det₂) →
        generateUuid cb₂ ad₂ ag₂ ch₂ = generateUuid cb ad ag ch →
        (cb₂, ad₂, ag₂, ch₂, det₂) = (cb, ad, ag, ch, det)) →
      pm.find (generateUuid cb ad ag ch) = some ⟨cb, ad, ag, ch, det⟩ := by
  intro ls
  induction ls with
  | nil =>
    intro pm0 pm hfold hsrc hinj
    obtain rfl := Except.ok.inj hfold
    rcases hsrc with ⟨ℓ, hmem, -⟩ | hfind
    · exact absurd hmem (List.not_mem_nil _)
    · exact hfind
  | cons a rest ih =>
    intro pm0 pm hfold hsrc hinj
    rw [List.foldlM_cons] at hfold
    cases hpl : processLine pm0 a with
    | error e =>
      rw [hpl, exceptBind_err] at hfold
      exact absurd hfold (by simp)
    | ok pm1 =>
      rw [hpl, exceptBind_ok] at hfold
      obtain ⟨cb2, ad2, ag2, ch2, det2, hrow2, rfl⟩ :=
        rowParse_of_processLine pm0 pm1 a hpl
      have hinj2 := fun ℓ₂ h₂ => hinj ℓ₂ (List.mem_cons_of_mem _ h₂)
      rcases hsrc with ⟨ℓ, hmem, hrowℓ⟩ | hfind
      · rcases List.mem_cons.mp hmem with rfl | hmem2
        · rw [hrow2] at hrowℓ
          have heq := Option.some.inj hrowℓ
          simp only [Prod.mk.injEq] at heq
          obtain ⟨rfl, rfl, rfl, rfl, rfl⟩ := heq
          refine ih _ pm hfold (Or.inr ?_) hinj2
          rw [find_insert, if_pos rfl]
        · exact ih _ pm hfold (Or.inl ⟨ℓ, hmem2, hrowℓ⟩) hinj2
      · refine ih _ pm hfold (Or.inr ?_) hinj2
        by_cases hu : generateUuid cb2 ad2 ag2 ch2 = generateUuid cb ad ag ch
        · have hsame := hinj a (List.mem_cons_self _ _) cb2 ad2 ag2 ch2 det2
            hrow2 hu
          simp only [Prod.mk.injEq] at hsame
          obtain ⟨rfl, rfl, rfl, rfl, rfl⟩ := hsame
          rw [find_insert, if_pos rfl]
        · rw [find_insert, if_neg hu]
          exact hfind

/-- Shape of a parsed row: a 5-field line denotes a `Pad` detector, a
    7-field line a `Silicon` one. -/
lemma rowParse_shape (ℓ : String) (cb ad ag ch : Nat) (det : Detector)
    (h : rowParse ℓ = some (cb, ad, ag, ch, det)) :
    (lineFieldCount ℓ = 5 ∧ ∃ p, det = .Pad p) ∨
      (lineFieldCount ℓ = 7 ∧ ∃ si, det = .Silicon si) := by
  unfold rowParse at h
  unfold lineFieldCount
  by_cases h5 : (splitTerminatorComma ℓ).length = 5
  · rw [if_pos h5] at h
    simp only [bind, Option.bind_eq_some, Option.some.injEq, Prod.mk.injEq] at h
    obtain ⟨cb0, -, ad0, -, ag0, -, ch0, -, p, -, -, -, -, -, hdet⟩ := h
    exact Or.inl ⟨h5, p, hdet.symm⟩
  · rw [if_neg h5] at h
    by_cases h7 : (splitTerminatorComma ℓ).length = 7
    · rw [if_pos h7] at h
      simp only [bind, Option.bind_eq_some, Option.some.injEq,
        Prod.mk.injEq] at h
      obtain ⟨cb0, -, ad0, -, ag0, -, ch0, -, sch, -, si, -, -, -, -, -,
        hdet⟩ := h
      exact Or.inr ⟨h7, si, hdet.symm⟩
    · rw [if_neg h7] at h
      exact absurd h (by simp)

/-- C6 counterexample: a 6-field line whose first field does not parse as
    u8 makes `GetChannelMap::new` fail with the integer-parse error, not
    with `BadFileFormat` as the claim states. -/
theorem c6_field_count_counterexample :
    channelMapNew ["h", "x,0,0,0,0,0"] = .error .ParsingError ∧
    lineFieldCount "x,0,0,0,0,0" = 6 ∧
    GetChannelMapError.ParsingError ≠ GetChannelMapError.BadFileFormat :=
  ⟨rfl, rfl, by decide⟩

/-- C6 (amended): a CSV with any non-header line whose field count is
    neither 5 nor 7 is rejected with some error; the error is
    `BadFileFormat` when the first such line follows only well-formed
    lines and either has fewer than 5 fields or has parseable first four
    fields; a 5-field row with parseable values yields a `Pad` entry, a
    7-field row a `Silicon` entry; and a file all of whose non-header
    lines have 5 or 7 parseable fields is accepted. -/
theorem c6_field_count_amended (lines : List String) :
    ((∃ ℓ ∈ lines.drop 1, lineFieldCount ℓ ≠ 5 ∧ lineFieldCount ℓ ≠ 7) →
      ∃ e, channelMapNew lines = .error e) ∧
    (∀ pre bad rest, lines.drop 1 = pre ++ bad :: rest →
      (∀ ℓ ∈ pre, (rowParse ℓ).isSome) →
      lineFieldCount bad ≠ 5 → lineFieldCount bad ≠ 7 →
      (lineFieldCount bad < 5 ∨ firstFourParse bad = true) →
      channelMapNew lines = .error .BadFileFormat) ∧
    ((∀ ℓ ∈ lines.drop 1, (rowParse ℓ).isSome) →
      ∃ pm, channelMapNew lines = .ok pm) ∧
    (∀ pm ℓ cb ad ag ch det, rowParse ℓ = some (cb, ad, ag, ch, det) →
      processLine pm ℓ =
        .ok (pm.insert (generateUuid cb ad ag ch) ⟨cb, ad, ag, ch, det⟩) ∧
      (lineFieldCount ℓ = 5 → ∃ p, det = .Pad p) ∧
      (lineFieldCount ℓ = 7 → ∃ si, det = .Silicon si)) := by
  refine ⟨?_, ?_, ?_, ?_⟩
  · rintro ⟨ℓ, hmem, hc5, hc7⟩
    exact foldlM_error_of_mem (lines.drop 1) ℓ hmem
      (fun pm pm2 => (processLine_badCount pm ℓ hc5 hc7).1 pm2) ⟨[]⟩
  · intro pre bad rest hsplit hpre hc5 hc7 hor
    unfold channelMapNew
    rw [hsplit]
    exact foldlM_prefix_bff pre bad rest hpre
      (fun pm => (processLine_badCount pm bad hc5 hc7).2 hor) ⟨[]⟩
  · intro hall
    exact foldlM_ok_of_all (lines.drop 1) hall ⟨[]⟩
  · intro pm ℓ cb ad ag ch det hrow
    refine ⟨processLine_of_rowParse pm ℓ cb ad ag ch det hrow, ?_, ?_⟩
    · intro hc5
      rcases rowParse_shape ℓ cb ad ag ch det hrow with ⟨-, hp⟩ | ⟨hc7, -⟩
      · exact hp
      · omega
    · intro hc7
      rcases rowParse_shape ℓ cb ad ag ch det hrow with ⟨hc5, -⟩ | ⟨-, hs⟩
      · omega
      · exact hs

/-- Witness for C6 (amended): a 6-field all-numeric row gives
    `BadFileFormat`, and a file of one 5-field and one 7-field row is
    accepted. -/
theorem c6_field_count_amended_witness :
    channelMapNew ["h", "1,2,3,4,5,6"] = .error .BadFileFormat ∧
    (∃ pm, channelMapNew ["h", "1,2,3,4,5", "1,2,3,4,upstream,front,9"] =
      .ok pm) := by
  constructor
  · exact (c6_field_count_amended ["h", "1,2,3,4,5,6"]).2.1 [] "1,2,3,4,5,6"
      [] rfl (fun ℓ h => absurd h (List.not_mem_nil _)) (by decide)
      (by decide) (Or.inr (by decide))
  · refine (c6_field_count_amended
      ["h", "1,2,3,4,5", "1,2,3,4,upstream,front,9"]).2.2.1 ?_
    intro ℓ hmem
    simp only [List.drop, List.mem_cons, List.not_mem_nil, or_false] at hmem
    rcases hmem with rfl | rfl
    · decide
    · decide

/-- C7 counterexample: two rows with distinct (cobo, asad, aget, channel)
    quadruples — (0,0,0,100) and (0,0,1,0) — derive the same 64-bit ID
    100, so the later row overwrites the earlier one and the lookup of
    the first row's quadruple returns the second row's entry (detector
    `Pad 2`, not the first row's `Pad 1`). -/
theorem c7_roundtrip_counterexample :
    channelMapNew ["h", "0,0,0,100,1", "0,0,1,0,2"] =
      .ok ⟨[(100, ⟨0, 0, 1, 0, .Pad 2⟩), (100, ⟨0, 0, 0, 100, .Pad 1⟩)]⟩ ∧
    rowParse "0,0,0,100,1" = some (0, 0, 0, 100, .Pad 1) ∧
    rowParse "0,0,1,0,2" = some (0, 0, 1, 0, .Pad 2) ∧
    ((0, 0, 0, 100) : Nat × Nat × Nat × Nat) ≠ (0, 0, 1, 0) ∧
    generateUuid 0 0 0 100 = generateUuid 0 0 1 0 ∧
    GetChannelMap.getHardwareId
      ⟨[(100, ⟨0, 0, 1, 0, .Pad 2⟩), (100, ⟨0, 0, 0, 100, .Pad 1⟩)]⟩
      0 0 0 100 = some ⟨0, 0, 1, 0, .Pad 2⟩ ∧
    Detector.Pad 2 ≠ Detector.Pad 1 :=
  ⟨rfl, rfl, rfl, by decide, rfl, rfl, by decide⟩

/-- C7 (amended): for every row of a successfully loaded CSV such that no
    other row derives the same 64-bit ID
    `channel + aget*100 + asad*10_000 + cobo*1_000_000` with a different
    value, `get_hardware_id` on the row's quadruple returns the hardware
    id parsed from that row (detector included). -/
theorem c7_roundtrip_amended (lines : List String) (pm : GetChannelMap)
    (hok : channelMapNew lines = .ok pm)
    (ℓ : String) (hmem : ℓ ∈ lines.drop 1)
    (cb ad ag ch : Nat) (det : Detector)
    (hrow : rowParse ℓ = some (cb, ad, ag, ch, det))
    (hinj : ∀ ℓ₂ ∈ lines.drop 1, ∀ cb₂ ad₂ ag₂ ch₂ det₂,
      rowParse ℓ₂ = some (cb₂, ad₂, ag₂, ch₂, det₂) →
      generateUuid cb₂ ad₂ ag₂ ch₂ = generateUuid cb ad ag ch →
      (cb₂, ad₂, ag₂, ch₂, det₂) = (cb, ad, ag, ch, det)) :
    pm.getHardwareId cb ad ag ch = some ⟨cb, ad, ag, ch, det⟩ := by
  unfold GetChannelMap.getHardwareId
  exact channelMap_find_after_fold cb ad ag ch det (lines.drop 1) ⟨[]⟩ pm hok
    (Or.inl ⟨ℓ, hmem, hrow⟩) hinj

/-- Witness for C7 (amended) on a one-row CSV. -/
theorem c7_roundtrip_amended_witness :
    GetChannelMap.getHardwareId ⟨[(5, ⟨0, 0, 0, 5, .Pad 9⟩)]⟩ 0 0 0 5 =
      some ⟨0, 0, 0, 5, .Pad 9⟩ := by
  refine c7_roundtrip_amended ["h", "0,0,0,5,9"] ⟨[(5, ⟨0, 0, 0, 5, .Pad 9⟩)]⟩
    rfl "0,0,0,5,9" (by simp) 0 0 0 5 (.Pad 9) rfl ?_
  intro ℓ₂ h₂ cb₂ ad₂ ag₂ ch₂ det₂ hrow₂ hu
  have hℓ : ℓ₂ = "0,0,0,5,9" := by simpa using h₂
  subst hℓ
  rw [show rowParse "0,0,0,5,9" = some (0, 0, 0, 5, Detector.Pad 9) from rfl]
    at hrow₂
  simp only [Option.some.injEq, Prod.mk.injEq] at hrow₂
  obtain ⟨rfl, rfl, rfl, rfl, rfl⟩ := hrow₂
  rfl

/-- Replacing the unprocessed suffix by one that processes identically
    from every loop state does not change `processEvt` (the loop handles
    the prefix the same way in both runs). -/
lemma processEvt_suffix_cong (l1 l2 : List RingItem)
    (h : ∀ ri sc ec, processEvt l1 ri sc ec = processEvt l2 ri sc ec) :
    ∀ (pre : List RingItem) (ri : RunInfo) (sc ec : Nat),
      processEvt (pre ++ l1) ri sc ec = processEvt (pre ++ l2) ri sc ec := by
  intro pre
  induction pre with
  | nil => intro ri sc ec; exact h ri sc ec
  | cons r rest ih =>
    intro ri sc ec
    simp only [List.cons_append, processEvt]
    cases hr : r.ring_type <;> simp [bind, ih]

/-- An `EndRun` item is decoded, the run info is written, and the loop
    terminates without looking at anything that follows. -/
lemma processEvt_endrun (post : List RingItem) (endItem : RingItem)
    (ri : RunInfo) (sc ec : Nat) (e : EndRunItem)
    (hend : endItem.ring_type = .EndRun)
    (hdec : EndRunItem.tryFrom endItem = some e) :
    processEvt (endItem :: post) ri sc ec =
      some [WriteAction.runinfo { ri with end_run := e }] := by
  simp only [processEvt, hend]
  simp [bind, hdec]


/-- The counters handed to the writer by `processEvt` are consecutive
    runs starting at the initial counter values. -/
lemma processEvt_counters :
    ∀ (items : List RingItem) (ri : RunInfo) (sc ec : Nat)
      (acts : List WriteAction),
      processEvt items ri sc ec = some acts →
      ∃ k m, scalerCounters acts = List.range' sc k ∧
        physicsCounters acts = List.range' ec m := by
  intro items
  induction items with
  | nil =>
    intro ri sc ec acts h
    obtain rfl := Option.some.inj h
    exact ⟨0, 0, rfl, rfl⟩
  | cons r rest ih =>
    intro ri sc ec acts h
    simp only [processEvt] at h
    split at h
    · -- BeginRun
      cases htf : BeginRunItem.tryFrom r with
      | none =>
        rw [htf] at h
        simp only [bind, Option.none_bind] at h
        exact absurd h (by simp)
      | some b =>
        rw [htf] at h
        simp only [bind, Option.some_bind] at h
        exact ih _ sc ec acts h
    · -- EndRun
      cases htf : EndRunItem.tryFrom r with
      | none =>
        rw [htf] at h
        simp only [bind, Option.none_bind] at h
        exact absurd h (by simp)
      | some e =>
        rw [htf] at h
        simp only [bind, Option.some_bind, Option.some.injEq] at h
        subst h
        exact ⟨0, 0, rfl, rfl⟩
    · -- Dummy
      exact ih ri sc ec acts h
    · -- Scalers
      cases htf : ScalersItem.tryFrom r with
      | none =>
        rw [htf] at h
        simp only [bind, Option.none_bind] at h
        exact absurd h (by simp)
      | some s =>
        rw [htf] at h
        simp only [bind, Option.some_bind, Option.bind_eq_some,
          Option.some.injEq] at h
        obtain ⟨acts2, hrec, rfl⟩ := h
        obtain ⟨k, m, hk, hm⟩ := ih ri (sc + 1) ec acts2 hrec
        refine ⟨k + 1, m, ?_, ?_⟩
        · simp only [scalerCounters, List.filterMap_cons] at hk ⊢
          rw [hk, List.range'_succ]
        · simp only [physicsCounters, List.filterMap_cons] at hm ⊢
          rw [hm]
    · -- Physics
      cases hrb : r.removeBoundaries with
      | none =>
        rw [hrb] at h
        simp only [bind, Option.none_bind] at h
        exact absurd h (by simp)
      | some ring2 =>
        rw [hrb] at h
        simp only [bind, Option.some_bind] at h
        cases htf : PhysicsItem.tryFrom ring2 with
        | none =>
          rw [htf] at h
          simp only [bind, Option.none_bind] at h
          exact absurd h (by simp)
        | some p =>
          rw [htf] at h
          simp only [bind, Option.some_bind, Option.bind_eq_some,
            Option.some.injEq] at h
          obtain ⟨acts2, hrec, rfl⟩ := h
          obtain ⟨k, m, hk, hm⟩ := ih ri sc (ec + 1) acts2 hrec
          refine ⟨k, m + 1, ?_, ?_⟩
          · simp only [scalerCounters, List.filterMap_cons] at hk ⊢
            rw [hk]
          · simp only [physicsCounters, List.filterMap_cons] at hm ⊢
            rw [hm, List.range'_succ]
    · -- Counter
      exact ih ri sc ec acts h
    · -- Invalid
      split at h
      · exact ih ri sc ec acts h
      · exact absurd h (by simp)

/-- `physicsWrites` / `scalerWrites` unfolding over each action kind. -/
lemma physicsWrites_nil : physicsWrites [] = [] := rfl

lemma physicsWrites_cons_runinfo (r : RunInfo) (rest : List WriteAction) :
    physicsWrites (WriteAction.runinfo r :: rest) = physicsWrites rest := rfl

lemma physicsWrites_cons_scalers (s : ScalersItem) (c : Nat)
    (rest : List WriteAction) :
    physicsWrites (WriteAction.scalers s c :: rest) = physicsWrites rest := rfl

lemma physicsWrites_cons_physics (p : PhysicsItem) (c : Nat)
    (rest : List WriteAction) :
    physicsWrites (WriteAction.physics p c :: rest) =
      p :: physicsWrites rest := rfl

lemma scalerWrites_nil : scalerWrites [] = [] := rfl

lemma scalerWrites_cons_runinfo (r : RunInfo) (rest : List WriteAction) :
    scalerWrites (WriteAction.runinfo r :: rest) = scalerWrites rest := rfl

lemma scalerWrites_cons_scalers (s : ScalersItem) (c : Nat)
    (rest : List WriteAction) :
    scalerWrites (WriteAction.scalers s c :: rest) =
      s :: scalerWrites rest := rfl

lemma scalerWrites_cons_physics (p : PhysicsItem) (c : Nat)
    (rest : List WriteAction) :
    scalerWrites (WriteAction.physics p c :: rest) = scalerWrites rest := rfl

/-- The items handed to the writer by `processEvt`: each `Physics` item
    of the consumed prefix is written after `remove_boundaries` and
    decoding, each `Scalers` item after decoding, in file order. -/
lemma processEvt_writes :
    ∀ (items : List RingItem) (ri : RunInfo) (sc ec : Nat)
      (acts : List WriteAction),
      processEvt items ri sc ec = some acts →
      physicsWrites acts = (takeUntilEndRun items).filterMap
        (fun r => if r.ring_type = .Physics then
          (RingItem.removeBoundaries r).bind PhysicsItem.tryFrom else none) ∧
      scalerWrites acts = (takeUntilEndRun items).filterMap
        (fun r => if r.ring_type = .Scalers then ScalersItem.tryFrom r
          else none) := by
  intro items
  induction items with
  | nil =>
    intro ri sc ec acts h
    obtain rfl := Option.some.inj h
    exact ⟨rfl, rfl⟩
  | cons r rest ih =>
    intro ri sc ec acts h
    simp only [processEvt] at h
    split at h
    · next x hr =>
      cases htf : BeginRunItem.tryFrom r with
      | none =>
        rw [htf] at h
        simp only [bind, Option.none_bind] at h
        exact absurd h (by simp)
      | some b =>
        rw [htf] at h
        simp only [bind, Option.some_bind] at h
        obtain ⟨hp, hs⟩ := ih _ sc ec acts h
        refine ⟨?_, ?_⟩ <;>
          simp [takeUntilEndRun, hr, List.filterMap_cons, hp, hs]
    · next x hr =>
      cases htf : EndRunItem.tryFrom r with
      | none =>
        rw [htf] at h
        simp only [bind, Option.none_bind] at h
        exact absurd h (by simp)
      | some e =>
        rw [htf] at h
        simp only [bind, Option.some_bind, Option.some.injEq] at h
        subst h
        refine ⟨?_, ?_⟩ <;>
          simp [takeUntilEndRun, hr, List.filterMap_cons, physicsWrites_nil,
            physicsWrites_cons_runinfo, scalerWrites_nil,
            scalerWrites_cons_runinfo]
    · next x hr =>
      obtain ⟨hp, hs⟩ := ih ri sc ec acts h
      refine ⟨?_, ?_⟩ <;>
        simp [takeUntilEndRun, hr, List.filterMap_cons, hp, hs]
    · next x hr =>
      cases htf : ScalersItem.tryFrom r with
      | none =>
        rw [htf] at h
        simp only [bind, Option.none_bind] at h
        exact absurd h (by simp)
      | some s =>
        rw [htf] at h
        simp only [bind, Option.some_bind, Option.bind_eq_some,
          Option.some.injEq] at h
        obtain ⟨acts2, hrec, rfl⟩ := h
        obtain ⟨hp, hs⟩ := ih ri (sc + 1) ec acts2 hrec
        refine ⟨?_, ?_⟩ <;>
          simp [takeUntilEndRun, hr, List.filterMap_cons, hp, hs,
            physicsWrites_cons_scalers, scalerWrites_cons_scalers, htf]
    · next x hr =>
      cases hrb : r.removeBoundaries with
      | none =>
        rw [hrb] at h
        simp only [bind, Option.none_bind] at h
        exact absurd h (by simp)
      | some ring2 =>
        rw [hrb] at h
        simp only [bind, Option.some_bind] at h
        cases htf : PhysicsItem.tryFrom ring2 with
        | none =>
          rw [htf] at h
          simp only [bind, Option.none_bind] at h
          exact absurd h (by simp)
        | some p =>
          rw [htf] at h
          simp only [bind, Option.some_bind, Option.bind_eq_some,
            Option.some.injEq] at h
          obtain ⟨acts2, hrec, rfl⟩ := h
          obtain ⟨hp, hs⟩ := ih ri sc (ec + 1) acts2 hrec
          refine ⟨?_, ?_⟩ <;>
            simp [takeUntilEndRun, hr, List.filterMap_cons, hp, hs,
              physicsWrites_cons_physics, scalerWrites_cons_physics, hrb, htf]
    · next x hr =>
      obtain ⟨hp, hs⟩ := ih ri sc ec acts h
      refine ⟨?_, ?_⟩ <;>
        simp [takeUntilEndRun, hr, List.filterMap_cons, hp, hs]
    · next x hr =>
      split at h
      · obtain ⟨hp, hs⟩ := ih ri sc ec acts h
        refine ⟨?_, ?_⟩ <;>
          simp [takeUntilEndRun, hr, List.filterMap_cons, hp, hs]
      · exact absurd h (by simp)

/-- C5: `FribBuilder::process_evt_data` never consumes an item after the
    first `EndRun` (on `EndRun` it decodes the item, writes the run info
    and terminates); `Dummy` and `Counter` items are ignored; scaler
    writes carry consecutive counters 0,1,2,... in file order and physics
    writes an independent consecutive counter starting at 0; and every
    written physics item is the decoding of its ring after
    `remove_boundaries`, every written scaler item the decoding of its
    ring, in file order. -/
theorem c5_process_evt_data :
    (∀ (pre post : List RingItem) (endItem : RingItem),
      endItem.ring_type = .EndRun →
      processEvtData (pre ++ endItem :: post) =
        processEvtData (pre ++ [endItem])) ∧
    (∀ (post : List RingItem) (endItem : RingItem) (ri : RunInfo)
      (sc ec : Nat) (e : EndRunItem),
      endItem.ring_type = .EndRun →
      EndRunItem.tryFrom endItem = some e →
      processEvt (endItem :: post) ri sc ec =
        some [WriteAction.runinfo { ri with end_run := e }]) ∧
    (∀ (pre post : List RingItem) (d : RingItem),
      d.ring_type = .Dummy ∨ d.ring_type = .Counter →
      processEvtData (pre ++ d :: post) = processEvtData (pre ++ post)) ∧
    (∀ (items : List RingItem) (acts : List WriteAction),
      processEvtData items = some acts →
      scalerCounters acts = List.range (scalerCounters acts).length ∧
      physicsCounters acts = List.range (physicsCounters acts).length ∧
      physicsWrites acts = (takeUntilEndRun items).filterMap
        (fun r => if r.ring_type = .Physics then
          (RingItem.removeBoundaries r).bind PhysicsItem.tryFrom else none) ∧
      scalerWrites acts = (takeUntilEndRun items).filterMap
        (fun r => if r.ring_type = .Scalers then ScalersItem.tryFrom r
          else none)) := by
  refine ⟨?_, ?_, ?_, ?_⟩
  · intro pre post endItem hend
    unfold processEvtData
    exact processEvt_suffix_cong (endItem :: post) [endItem]
      (fun ri sc ec => by simp only [processEvt, hend]) pre RunInfo.new 0 0
  · intro post endItem ri sc ec e hend hdec
    exact processEvt_endrun post endItem ri sc ec e hend hdec
  · intro pre post d hd
    unfold processEvtData
    refine processEvt_suffix_cong (d :: post) post
      (fun ri sc ec => ?_) pre RunInfo.new 0 0
    rcases hd with hd | hd <;> simp only [processEvt, hd]
  · intro items acts h
    obtain ⟨k, m, hk, hm⟩ := processEvt_counters items RunInfo.new 0 0 acts h
    obtain ⟨hp, hs⟩ := processEvt_writes items RunInfo.new 0 0 acts h
    refine ⟨?_, ?_, hp, hs⟩
    · rw [hk, List.length_range', List.range_eq_range']
    · rw [hm, List.length_range', List.range_eq_range']

/-- Witness for C5 on concrete ring sequences. -/
theorem c5_process_evt_data_witness :
    processEvtData ([scalerRingEx] ++ endRingEx :: [physRingEx]) =
      processEvtData ([scalerRingEx] ++ [endRingEx]) ∧
    processEvt (endRingEx :: [physRingEx]) RunInfo.new 0 0 =
      some [WriteAction.runinfo { RunInfo.new with end_run := ⟨0, 0⟩ }] ∧
    processEvtData ([scalerRingEx] ++ dummyRingEx :: [physRingEx, endRingEx]) =
      processEvtData ([scalerRingEx] ++ [physRingEx, endRingEx]) ∧
    scalerCounters [WriteAction.scalers ⟨0, 0, 0, 0, []⟩ 0,
        WriteAction.physics { PhysicsItem.new with event := 7, timestamp := 9 } 0,
        WriteAction.scalers ⟨0, 0, 0, 0, []⟩ 1,
        WriteAction.runinfo { RunInfo.new with end_run := ⟨0, 0⟩ }] =
      List.range (scalerCounters [WriteAction.scalers ⟨0, 0, 0, 0, []⟩ 0,
        WriteAction.physics { PhysicsItem.new with event := 7, timestamp := 9 } 0,
        WriteAction.scalers ⟨0, 0, 0, 0, []⟩ 1,
        WriteAction.runinfo { RunInfo.new with end_run := ⟨0, 0⟩ }]).length :=
  ⟨(c5_process_evt_data).1 [scalerRingEx] [physRingEx] endRingEx rfl,
    (c5_process_evt_data).2.1 [physRingEx] endRingEx RunInfo.new 0 0 ⟨0, 0⟩
      rfl rfl,
    (c5_process_evt_data).2.2.1 [scalerRingEx] [physRingEx, endRingEx]
      dummyRingEx (Or.inl rfl),
    ((c5_process_evt_data).2.2.2
      [scalerRingEx, physRingEx, scalerRingEx, endRingEx]
      [WriteAction.scalers ⟨0, 0, 0, 0, []⟩ 0,
        WriteAction.physics { PhysicsItem.new with event := 7, timestamp := 9 } 0,
        WriteAction.scalers ⟨0, 0, 0, 0, []⟩ 1,
        WriteAction.runinfo { RunInfo.new with end_run := ⟨0, 0⟩ }] rfl).1⟩
